import Mathlib

/-!
# Verification of the Anchor space-calculator size engine

This file gives a shallow embedding of the size-resolution engine of
`src/app.py` (the function `calculate_struct_size` together with its helpers
`split_variants` and the inner closure `safe_get_size`), and proves or refutes
the specification claims about it.

Modelling conventions:
* Python strings are `List Char` (`Str` below); all scanning helpers mirror the
  corresponding Python string methods and the concrete regular expressions used
  by the source, specialised to their actual patterns.
* Python `dict`s are association lists with insert-or-replace semantics
  (`alistInsert`), preserving insertion order like Python dicts do.
* An uncaught Python exception (`KeyError`, `ValueError`, `AttributeError`) is
  `Except.error`; messages written to the warning container are collected in a
  `List Msg` inside the successful result.  Messages emitted before an
  exception are discarded together with the rest of the aborted computation.
* `st.session_state` is modelled by `Session`; the engine reads only
  `vec_size` from it (as the source does), `str_size` is carried but never
  read, mirroring the source.
* Machine integers do not occur; Python integers are unbounded, hence `Int`.
-/

/-- Python strings, as plain character lists. -/
abbrev Str := List Char

/-- Build a `Str` from a Lean string literal. -/
def chars (s : String) : Str := s.data

/-- Python `str.lower` (ASCII, as used by the source). -/
def lowerStr (s : Str) : Str := s.map Char.toLower

/-- The whitespace set of Python `str.strip`. -/
def isPySpace (c : Char) : Bool :=
  c = ' ' || c = '\t' || c = '\n' || c = '\r' || c = '\x0b' || c = '\x0c'

/-- Python `str.strip()`. -/
def pyStrip (s : Str) : Str :=
  ((s.dropWhile isPySpace).reverse.dropWhile isPySpace).reverse

/-- Python `str.rstrip(c)` for a single strip character. -/
def pyRstripChar (c : Char) (s : Str) : Str :=
  (s.reverse.dropWhile (· = c)).reverse

/-- Does `s` start with `pat` (case sensitive)?  Python `str.startswith`. -/
def startsWithStr : Str → Str → Bool
  | _, [] => true
  | [], _ :: _ => false
  | c :: s, p :: ps => c = p && startsWithStr s ps

/-- Strip a literal pattern from the front of `s` (case sensitive), returning
the remainder. -/
def stripMatch : Str → Str → Option Str
  | s, [] => some s
  | [], _ :: _ => none
  | c :: s, p :: ps => if c = p then stripMatch s ps else none

/-- Strip a literal pattern from the front of `s`, matching case-insensitively
as `re.IGNORECASE` does on ASCII; returns the matched original characters and
the remainder. -/
def stripMatchCI : Str → Str → Option (Str × Str)
  | s, [] => some ([], s)
  | [], _ :: _ => none
  | c :: s, p :: ps =>
      if c.toLower = p.toLower then
        (stripMatchCI s ps).map (fun r => (c :: r.1, r.2))
      else none

/-- Find the first occurrence of the literal `pat` in `s` (case sensitive);
returns the text before the occurrence and the text after it. -/
def findSub (pat : Str) : Str → Option (Str × Str)
  | [] => (stripMatch [] pat).map (fun r => ([], r))
  | c :: rest =>
      match stripMatch (c :: rest) pat with
      | some r => some ([], r)
      | none => (findSub pat rest).map (fun p => (c :: p.1, p.2))

/-- Find the first occurrence of the literal `pat` in `s`, case-insensitively;
returns the text before the occurrence and the text after it. -/
def findSubCI (pat : Str) : Str → Option (Str × Str)
  | [] => (stripMatchCI [] pat).map (fun r => ([], r.2))
  | c :: rest =>
      match stripMatchCI (c :: rest) pat with
      | some r => some ([], r.2)
      | none => (findSubCI pat rest).map (fun p => (c :: p.1, p.2))

/-- Split at the first occurrence of character `c` (Python `split(c, 1)` when
an occurrence exists); `none` when `c` does not occur. -/
def breakAtChar (c : Char) : Str → Option (Str × Str)
  | [] => none
  | x :: rest =>
      if x = c then some ([], rest)
      else (breakAtChar c rest).map (fun p => (x :: p.1, p.2))

/-- Python `s.rsplit(c, 1)[0]`: everything before the last occurrence of `c`,
or all of `s` when `c` does not occur. -/
def dropFromLastChar (c : Char) (s : Str) : Str :=
  match breakAtChar c s.reverse with
  | some p => p.2.reverse
  | none => s

/-- Python `str.split(c)` for a one-character separator (keeps empty parts). -/
def splitOnCharAux (c : Char) (cur : Str) : Str → List Str
  | [] => [cur.reverse]
  | x :: rest =>
      if x = c then cur.reverse :: splitOnCharAux c [] rest
      else splitOnCharAux c (x :: cur) rest

/-- Python `str.split(c)` for a one-character separator. -/
def splitOnChar (c : Char) (s : Str) : List Str := splitOnCharAux c [] s

/-- Python `sep.join(parts)`. -/
def joinSep (sep : Str) : List Str → Str
  | [] => []
  | [x] => x
  | x :: y :: rest => x ++ sep ++ joinSep sep (y :: rest)

/-- Decimal digits of a positive number, most significant first (fuelled). -/
def natToCharsAux : Nat → Nat → Str
  | 0, _ => []
  | fuel + 1, n =>
      if n = 0 then []
      else natToCharsAux fuel (n / 10) ++ [Char.ofNat (48 + n % 10)]

/-- Python `str(n)` for a natural number. -/
def natToChars (n : Nat) : Str :=
  if n = 0 then ['0'] else natToCharsAux (n + 1) n

/-- Python `str(i)` for an integer. -/
def intToChars : Int → Str
  | .ofNat n => natToChars n
  | .negSucc n => '-' :: natToChars (n + 1)

/-- Digit-string accumulator for `pyInt`. -/
def digitsToNat (acc : Nat) : Str → Option Nat
  | [] => some acc
  | c :: rest =>
      if '0' ≤ c && c ≤ '9' then digitsToNat (acc * 10 + (c.toNat - 48)) rest
      else none

/-- Python `int(s)`: optional surrounding whitespace, optional sign, at least
one decimal digit; raises `ValueError` (here `none`) otherwise. -/
def pyInt (s : Str) : Option Int :=
  match pyStrip s with
  | '-' :: ds =>
      if ds.isEmpty then none else (digitsToNat 0 ds).map (fun n => -(n : Int))
  | '+' :: ds =>
      if ds.isEmpty then none else (digitsToNat 0 ds).map (fun n => (n : Int))
  | ds =>
      if ds.isEmpty then none else (digitsToNat 0 ds).map (fun n => (n : Int))

/-- Is `pat` a substring of `s`?  Python `pat in s`. -/
def containsSub (pat : Str) : Str → Bool
  | [] => pat.isEmpty
  | c :: rest => startsWithStr (c :: rest) pat || containsSub pat rest

/-- Association-list lookup: Python `d[k]` / `k in d` (first, i.e. unique,
binding wins; Python dict keys are unique). -/
def alistLookup {α : Type} (m : List (Str × α)) (k : Str) : Option α :=
  match m with
  | [] => none
  | (k', v) :: rest => if k' = k then some v else alistLookup rest k

/-- Python dict assignment `d[k] = v`: replace in place, else append. -/
def alistInsert {α : Type} (m : List (Str × α)) (k : Str) (v : α) : List (Str × α) :=
  match m with
  | [] => [(k, v)]
  | (k', v') :: rest =>
      if k' = k then (k, v) :: rest else (k', v') :: alistInsert rest k v

/-- Python `d.update(d2)`. -/
def alistUpdate {α : Type} (m l : List (Str × α)) : List (Str × α) :=
  l.foldl (fun acc p => alistInsert acc p.1 p.2) m

/-! ## Source constants (`src/app.py` lines 44–57) -/

/-- `DEFAULT_SIZE_MAP` from the source: the fixed primitive byte sizes. -/
def DEFAULT_SIZE_MAP : List (Str × Int) :=
  [(chars "bool", 1),
   (chars "u8", 1), (chars "i8", 1),
   (chars "u16", 2), (chars "i16", 2),
   (chars "u32", 4), (chars "i32", 4),
   (chars "u64", 8), (chars "i64", 8),
   (chars "u128", 16), (chars "i128", 16),
   (chars "pubkey", 32),
   (chars "f32", 4),
   (chars "f64", 8)]

/-- `DEFAULT_VEC` from the source: the default assumed `Vec` length. -/
def DEFAULT_VEC : Int := 10

/-- `DEFAULT_STR` from the source: the assumed string byte length. -/
def DEFAULT_STR : Int := 1

/-! ## `split_variants` (`src/app.py` lines 59–76)

The source tracks a (possibly negative) brace depth and splits on commas only
at depth 0; each emitted span is `strip`ped, and the final span runs to the
end of the text. -/

/-- Worker for `split_variants`: `depth`/`cur` are the loop state (current
span accumulated in reverse). -/
def svAux (depth : Int) (cur : Str) : Str → List Str
  | [] => [pyStrip cur.reverse]
  | c :: rest =>
      if c = '\x7b' then svAux (depth + 1) (c :: cur) rest
      else if c = '\x7d' then svAux (depth - 1) (c :: cur) rest
      else if c = ',' ∧ depth = 0 then pyStrip cur.reverse :: svAux 0 [] rest
      else svAux depth (c :: cur) rest

/-- `split_variants` from the source. -/
def split_variants (text : Str) : List Str := svAux 0 [] text

/-! ## The regular expressions used by the source

Each Python regex is specialised to its concrete pattern.  The lazy groups
collapse to "first occurrence" searches:

* `re.search(r'pub enum (.*?) {([^}]*)}', section, re.DOTALL)` succeeds iff
  `"pub enum "` occurs, followed somewhere by `" {"`, followed somewhere by
  `"}"`; group 1 is the text between `"pub enum "` and the first following
  `" {"`, group 2 the text from there to the first following `"}"`.  (If the
  first `" {"` after `"pub enum "` has no later `"}"`, no later `" {"` has one
  either, so regex backtracking cannot rescue the match; similarly for later
  occurrences of `"pub enum "`.)
* `re.search(r'vec<(.*?)>', t, re.IGNORECASE)` (and `option<`): group 1 is the
  text between the first case-insensitive `"vec<"` and the first following
  `">"`.
* `re.search(r'\[(.*?);(.*?)\]', t)`: groups are the text between the first
  `"["` and the first following `";"`, and from there to the first `"]"`. -/

/-- Model of `re.search(r'pub enum (.*?) {([^}]*)}', section, re.DOTALL)`,
returning `(group 1, group 2)`. -/
def searchEnumDecl (s : Str) : Option (Str × Str) :=
  match findSub (chars "pub enum ") s with
  | none => none
  | some (_, afterKw) =>
      match findSub [' ', '\x7b'] afterKw with
      | none => none
      | some (name, afterBrace) =>
          match findSub ['\x7d'] afterBrace with
          | none => none
          | some (body, _) => some (name, body)

/-- Model of `re.search(kw + r'(.*?)>', t, re.IGNORECASE).group(1)` for
`kw ∈ {"vec<", "option<"}`. -/
def searchAngleInner (kw : Str) (s : Str) : Option Str :=
  match findSubCI kw s with
  | none => none
  | some (_, after) => (findSub ['>'] after).map (fun p => p.1)

/-- Model of `re.search(r'\[(.*?);(.*?)\]', t)`, returning
`(group 1, group 2)`. -/
def searchArrayParts (s : Str) : Option (Str × Str) :=
  match findSub ['['] s with
  | none => none
  | some (_, after1) =>
      match findSub [';'] after1 with
      | none => none
      | some (g1, after2) => (findSub [']'] after2).map (fun p => (g1, p.1))

/-! ## Section splitting and ordering (`src/app.py` lines 91–97)

`re.split(r'(pub struct|pub enum|impl)', text, flags=re.IGNORECASE)` scans the
text left to right for the three keywords (the alternatives cannot match at
the same position, so alternation order is irrelevant), and the source then
zips each captured keyword with the text that follows it.  `splitSecFuel`
performs the same scan directly, producing the leading unmatched text and the
`(captured keyword, following text)` pairs; the fuel is one more than the
text length, which every recursive call strictly decreases by at least one
consumed character, so it is never exhausted. -/

/-- One `Declaration Block`: captured introducer keyword and following text. -/
abbrev Sect := Str × Str

/-- Fuelled worker for `splitSections`. -/
def splitSecFuel : Nat → Str → Str × List Sect
  | 0, s => (s, [])
  | fuel + 1, s =>
      match s with
      | [] => ([], [])
      | c :: rest =>
          match stripMatchCI (c :: rest) (chars "pub struct") with
          | some r => let p := splitSecFuel fuel r.2; ([], (r.1, p.1) :: p.2)
          | none =>
          match stripMatchCI (c :: rest) (chars "pub enum") with
          | some r => let p := splitSecFuel fuel r.2; ([], (r.1, p.1) :: p.2)
          | none =>
          match stripMatchCI (c :: rest) (chars "impl") with
          | some r => let p := splitSecFuel fuel r.2; ([], (r.1, p.1) :: p.2)
          | none => let p := splitSecFuel fuel rest; (c :: p.1, p.2)

/-- The `re.split` + `zip` step: leading text (discarded by the source) and
the ordered `(introducer, body)` pairs. -/
def splitSections (s : Str) : Str × List Sect := splitSecFuel (s.length + 1) s

/-- The sort key of line 97: `{'pub enum': 1, 'pub struct': 2, 'impl': 3}`
applied to the lowercased introducer.  The value 4 is unreachable because the
splitter only ever captures the three keywords. -/
def sectKey (p : Sect) : Nat :=
  let k := lowerStr p.1
  if k = chars "pub enum" then 1
  else if k = chars "pub struct" then 2
  else if k = chars "impl" then 3
  else 4

/-- Insert into a sorted list, after all strictly smaller keys and before all
equal or larger ones (the placement that makes `insSort` stable). -/
def insSorted {α : Type} (key : α → Nat) (x : α) : List α → List α
  | [] => [x]
  | y :: ys => if key y < key x then y :: insSorted key x ys else x :: y :: ys

/-- Stable sort by key; extensionally equal to Python's stable `list.sort`. -/
def insSort {α : Type} (key : α → Nat) : List α → List α
  | [] => []
  | x :: xs => insSorted key x (insSort key xs)

/-! ## The engine state and result -/

/-- One message sent to the warning container (`warning_cont`). -/
inductive Msg
  | warn (s : Str)
  | err (s : Str)
deriving DecidableEq, Repr

/-- `struct_calc_strs` is initialised to the string `""` (line 87) and
re-initialised to a list at the start of each struct section (line 149); when
the input has no struct section the string survives to the return value, so
the variable is genuinely string-or-list. -/
inductive CalcStrs
  | init (s : Str)
  | strs (l : List Str)
deriving DecidableEq, Repr

/-- The two `st.session_state` keys consulted by the page; the engine itself
reads only `vec_size` (line 168) and never `str_size`, mirroring the source. -/
structure Session where
  vecSize : Int
  strSize : Int
deriving DecidableEq, Repr

/-- The per-type size table (`size_map`). -/
abbrev SizeMap := List (Str × Int)

/-- `enum_sizes`: lowercased union name to (size, symbolic derivation). -/
abbrev EnumSizes := List (Str × (Int × Str))

/-- The mutable locals of one computation pass. -/
structure St where
  enumSizes : EnumSizes
  structSize : Int
  calcStrs : CalcStrs
  comments : List Str
  msgs : List Msg
deriving DecidableEq, Repr

/-- Everything a successful pass produces: the Python return tuple
`(struct_size, struct_calc_strs, comments_strs, size_map)`, together with the
collected warning-container messages and the internal `enum_sizes` table
(exposed here for analysis). -/
structure CalcResult where
  structSize : Int
  calcStrs : CalcStrs
  comments : List Str
  msgs : List Msg
  sizeMap : SizeMap
  enumSizes : EnumSizes
deriving DecidableEq, Repr

instance {ε α : Type} [DecidableEq ε] [DecidableEq α] : DecidableEq (Except ε α)
  | .error e, .error f =>
      if h : e = f then .isTrue (by rw [h]) else .isFalse (fun c => by cases c; exact h rfl)
  | .error _, .ok _ => .isFalse (fun c => by cases c)
  | .ok _, .error _ => .isFalse (fun c => by cases c)
  | .ok a, .ok b =>
      if h : a = b then .isTrue (by rw [h]) else .isFalse (fun c => by cases c; exact h rfl)

/-! ## The engine (`src/app.py` lines 84–210) -/

/-- The error text emitted by `safe_get_size` (line 146). -/
def noTypeFieldMsg (base_type line : Str) : Str :=
  chars "ERROR: no type \"`" ++ base_type ++ chars "`\" in map (for \"`" ++
    line ++ chars "`\")"

/-- `safe_get_size` (lines 139–147): consult `size_map`, then `enum_sizes`,
else report an error and yield 0. -/
def safe_get_size (size_map : SizeMap) (enum_sizes : EnumSizes)
    (base_type line : Str) : Int × List Msg :=
  match alistLookup size_map (lowerStr base_type) with
  | some v => (v, [])
  | none =>
      match alistLookup enum_sizes (lowerStr base_type) with
      | some v => (v.1, [])
      | none => (0, [Msg.err (noTypeFieldMsg base_type line)])

/-- The variant-field loop (lines 125–129): each field must split on `':'`
into exactly two parts (else `ValueError`), and its type is looked up directly
in `size_map` (else `KeyError`); sizes are summed and the lowercased types
collected in order. -/
def resolveVariantFields (size_map : SizeMap) : List Str → Except Str (Int × List Str)
  | [] => .ok (0, [])
  | field :: rest =>
      match splitOnChar ':' field with
      | [_, fieldType] =>
          let ft := pyStrip fieldType
          match alistLookup size_map (lowerStr ft) with
          | some sz =>
              (resolveVariantFields size_map rest).map
                (fun p => (p.1 + sz, lowerStr ft :: p.2))
          | none => .error (chars "KeyError: " ++ lowerStr ft)
      | _ => .error (chars "ValueError: not exactly one colon in variant field")

/-- The variant loop (lines 117–132): running maximum of `1 + payload` and
the derivation string, the latter overwritten by every payload-bearing
variant. -/
def processEnumVariants (size_map : SizeMap) :
    List Str → Int → Str → Except Str (Int × Str)
  | [], sz, cstr => .ok (sz, cstr)
  | v :: rest, sz, cstr =>
      match breakAtChar '\x7b' (pyStrip v) with
      | none => processEnumVariants size_map rest sz cstr
      | some br =>
          let fields := splitOnChar ',' (dropFromLastChar '\x7d' br.2)
          match resolveVariantFields size_map fields with
          | .error e => .error e
          | .ok p =>
              processEnumVariants size_map rest (max sz (1 + p.1))
                (chars "1 + " ++ joinSep (chars " + ") p.2)

/-- The `pub enum` branch (lines 108–134): regex-extract name and body (an
unmatched regex raises `AttributeError`), split variants, resolve them, and
record the union under its lowercased name. -/
def processEnumSection (size_map : SizeMap) (st : St) (sect : Str) : Except Str St :=
  match searchEnumDecl sect with
  | none => .error (chars "AttributeError: NoneType object has no attribute groups")
  | some nb =>
      let enum_name := pyStrip nb.1
      let enum_variants := split_variants (pyStrip nb.2)
      match processEnumVariants size_map enum_variants 1 (chars "1") with
      | .error e => .error e
      | .ok p =>
          .ok { st with
                enumSizes := alistInsert st.enumSizes (lowerStr enum_name) (p.1, p.2) }

/-- Append to `struct_calc_strs`; inside a struct section the variable is
always in list form (it is reset at line 149 before the line loop). -/
def calcAppend : CalcStrs → Str → CalcStrs
  | .strs l, x => .strs (l ++ [x])
  | .init s, _ => .init s

/-- Does `s` end with `pat`?  Python `str.endswith`. -/
def endsWithStr (s pat : Str) : Bool := startsWithStr s.reverse pat.reverse

/-- One iteration of the struct line loop (lines 152–206).  The line is
stripped; blank lines and whole-line comments are skipped; a trailing comment
is cut; lines without exactly one `':'` are skipped; otherwise the cleaned
type text is dispatched to the seven shape branches in source order. -/
def processStructLine (size_map : SizeMap) (sess : Session) (st : St)
    (rawLine : Str) : Except Str St :=
  let line1 := pyStrip rawLine
  if line1.isEmpty || startsWithStr line1 (chars "//") then .ok st
  else
    let line := match findSub (chars "//") line1 with
      | some p => p.1
      | none => line1
    match splitOnChar ':' line with
    | [p0, p1] =>
        let type_str := pyStrip (pyRstripChar ';' (pyRstripChar ',' (pyStrip p1)))
        if startsWithStr (lowerStr type_str) (chars "vec<") then
          -- lines 167–174; the session override is read here, `DEFAULT_VEC`
          -- being its fallback, and the element type is looked up directly in
          -- `size_map` (a missing key raises `KeyError`)
          let vec_size := sess.vecSize
          match searchAngleInner (chars "vec<") type_str with
          | none => .error (chars "AttributeError: NoneType object has no attribute group")
          | some base_type =>
              match alistLookup size_map (lowerStr base_type) with
              | none => .error (chars "KeyError: " ++ lowerStr base_type)
              | some bsz =>
                  let this_size := 4 + bsz * vec_size
                  .ok { st with
                        msgs := st.msgs ++
                          [Msg.warn (chars "spotted `Vec`, assuming length " ++
                            intToChars vec_size)],
                        structSize := st.structSize + this_size,
                        calcStrs := calcAppend st.calcStrs
                          (chars "4 + " ++ lowerStr base_type ++ chars " * " ++
                            intToChars vec_size),
                        comments := st.comments ++
                          [chars "+ " ++ intToChars this_size ++ chars " // " ++
                            p0 ++ chars ": " ++ type_str] }
        else if startsWithStr (lowerStr type_str) (chars "option<") then
          -- lines 175–181: one presence byte plus `safe_get_size`
          match searchAngleInner (chars "option<") type_str with
          | none => .error (chars "AttributeError: NoneType object has no attribute group")
          | some base_type =>
              let r := safe_get_size size_map st.enumSizes base_type line
              let this_size := 1 + r.1
              .ok { st with
                    msgs := st.msgs ++ r.2,
                    structSize := st.structSize + this_size,
                    calcStrs := calcAppend st.calcStrs
                      (chars "1 + " ++ lowerStr base_type),
                    comments := st.comments ++
                      [chars "+ " ++ intToChars this_size ++ chars " // " ++
                        p0 ++ chars ": " ++ type_str] }
        else if startsWithStr type_str (chars "string") then
          -- lines 182–186: note the case-sensitive match and the use of the
          -- constant `DEFAULT_STR`, not any session override
          let this_size := 4 + DEFAULT_STR
          .ok { st with
                structSize := st.structSize + this_size,
                calcStrs := calcAppend st.calcStrs
                  (chars "4 + " ++ intToChars DEFAULT_STR),
                comments := st.comments ++
                  [chars "+ " ++ intToChars this_size ++ chars " // " ++
                    p0 ++ chars ": " ++ type_str] }
        else if startsWithStr type_str (chars "[") && endsWithStr type_str (chars "]") then
          -- lines 187–195: fixed array, `int(...)` may raise `ValueError`
          match searchArrayParts type_str with
          | none => .error (chars "AttributeError: NoneType object has no attribute group")
          | some ba =>
              match pyInt ba.2 with
              | none => .error (chars "ValueError: invalid literal for int")
              | some amount =>
                  let r := safe_get_size size_map st.enumSizes ba.1 line
                  let this_size := r.1 * amount
                  .ok { st with
                        msgs := st.msgs ++ r.2,
                        structSize := st.structSize + this_size,
                        calcStrs := calcAppend st.calcStrs
                          (lowerStr ba.1 ++ chars " * " ++ intToChars amount),
                        comments := st.comments ++
                          [chars "+ " ++ intToChars this_size ++ chars " // " ++
                            p0 ++ chars ": " ++ type_str] }
        else
          match alistLookup st.enumSizes (lowerStr type_str) with
          | some p =>
              -- lines 196–200: a previously resolved union name
              .ok { st with
                    structSize := st.structSize + p.1,
                    calcStrs := calcAppend st.calcStrs p.2,
                    comments := st.comments ++
                      [chars "+ " ++ intToChars p.1 ++ chars " // " ++
                        p0 ++ chars ": " ++ type_str] }
          | none =>
              match alistLookup size_map (lowerStr type_str) with
              | some v =>
                  -- lines 201–204: a plain table entry
                  .ok { st with
                        structSize := st.structSize + v,
                        calcStrs := calcAppend st.calcStrs (lowerStr type_str),
                        comments := st.comments ++
                          [chars "+ " ++ intToChars v ++ chars " // " ++
                            p0 ++ chars ": " ++ type_str] }
              | none =>
                  -- lines 205–206: the unresolved-type error branch
                  .ok { st with
                        msgs := st.msgs ++
                          [Msg.err (chars "no type: \"" ++ type_str ++
                            chars "\" in byte size map")] }
    | _ => .ok st

/-- The `pub struct` branch (lines 137–206): reset `struct_calc_strs` to a
list, then fold the line processor over the section's lines. -/
def processStructSection (size_map : SizeMap) (sess : Session) (st : St)
    (sect : Str) : Except Str St :=
  (splitOnChar '\n' sect).foldlM (processStructLine size_map sess)
    { st with calcStrs := .strs [] }

/-- One iteration of the section loop (lines 102–206): prepend the lowercased
introducer, skip any section containing `"impl"`, then dispatch on the
introducer keyword found by substring search. -/
def processSection (size_map : SizeMap) (sess : Session) (st : St) (p : Sect) :
    Except Str St :=
  let sect := lowerStr p.1 ++ p.2
  if containsSub (chars "impl") sect then .ok st
  else if containsSub (chars "pub enum") sect then processEnumSection size_map st sect
  else if containsSub (chars "pub struct") sect then
    processStructSection size_map sess st sect
  else .ok st

/-- The initial values of the pass-local variables (lines 85–88). -/
def initialSt : St :=
  { enumSizes := [], structSize := 0, calcStrs := .init [], comments := [],
    msgs := [] }

/-- Fold the section processor over the sorted sections. -/
def runSections (size_map : SizeMap) (sess : Session) (sections : List Sect) :
    Except Str St :=
  sections.foldlM (processSection size_map sess) initialSt

/-- `calculate_struct_size` (lines 84–210).  A successful pass ends by merging
the resolved union sizes into the caller's `size_map` **in place** (line 208)
and returning it; `CalcResult.sizeMap` is that merged table. -/
def calculate_struct_size (text : Str) (sess : Session) (size_map : SizeMap) :
    Except Str CalcResult :=
  match runSections size_map sess (insSort sectKey (splitSections text).2) with
  | .error e => .error e
  | .ok st =>
      .ok { structSize := st.structSize,
            calcStrs := st.calcStrs,
            comments := st.comments,
            msgs := st.msgs,
            sizeMap := alistUpdate size_map (st.enumSizes.map (fun p => (p.1, p.2.1))),
            enumSizes := st.enumSizes }

/-! ## Auxiliary definitions for the specification statements -/

/-- The number of error (as opposed to warning) messages. -/
def errCount (l : List Msg) : Nat :=
  l.countP (fun m => match m with | .err _ => true | .warn _ => false)

/-- All keys of an association list are distinct (true of every Python dict). -/
def uniqueKeys {α : Type} (l : List (Str × α)) : Prop :=
  l.Pairwise (fun a b => a.1 ≠ b.1)

/-- The field spans a payload-bearing variant is cut into by lines 120–121,
`none` when the variant carries no brace. -/
def variantFieldsOf (v : Str) : Option (List Str) :=
  (breakAtChar '\x7b' (pyStrip v)).map
    (fun br => splitOnChar ',' (dropFromLastChar '\x7d' br.2))

/-- The session as it stands before any override is entered. -/
def defaultSession : Session := { vecSize := DEFAULT_VEC, strSize := DEFAULT_STR }

/-! ### Concrete inputs used in the claim theorems -/

/-- A union declaration with no brace-delimited body. -/
def txtEnumNoBrace : Str := chars "pub enum Foo"

/-- A union whose payload field type is absent from the size table. -/
def txtEnumBadPayload : Str := chars "pub enum A \x7b X \x7b b: Foo \x7d \x7d"

/-- A record with a text field in the Rust spelling `String`. -/
def txtStringCap : Str := chars "pub struct Data \x7b\n    pub s: String,\n\x7d"

/-- A record with a lowercase `string` field (the only spelling the string
branch matches). -/
def txtStringLow : Str := chars "pub struct Data \x7b\n    pub s: string,\n\x7d"

/-- A lone union declaration (first pass of the shared-table scenario). -/
def txtEnumGs : Str := chars "pub enum Gs \x7b\n    A,\n    B \x7b x: u8 \x7d,\n\x7d"

/-- A lone record referencing that union by name (second pass). -/
def txtStructGs : Str := chars "pub struct S \x7b\n    pub a: Gs,\n\x7d"

/-- A union whose larger payload variant comes second in source order. -/
def txtDeriv : Str := chars "pub enum E \x7b A \x7b x: u8 \x7d, B \x7b y: u16 \x7d \x7d"

/-- A record declared before the union it references. -/
def txtOrder : Str :=
  chars "pub struct S \x7b\n    pub f: U,\n\x7d\npub enum U \x7b A, B \x7b x: u8 \x7d \x7d"

/-- The enum example from the source's own rules table (`RULES_STR` line 40):
`Enum { A, B { val: u8 }, C { val: u16 } }`, documented there as having
size `1 + space(u16) = 3`. -/
def txtRules : Str :=
  chars "pub enum E \x7b\n    A,\n    B \x7b val: u8 \x7d,\n    C \x7b val: u16 \x7d,\n\x7d"

/-- The `{NoPayload}` / `{WithByte: u8}` union of the claim, embedded in a
record. -/
def txtTag : Str :=
  chars "pub enum U \x7b\n    NoPayload,\n    WithByte \x7b x: u8 \x7d,\n\x7d\npub struct S \x7b\n    pub f: U,\n\x7d"

/-- Optional fields over a resolved type, an unresolved type, and a plain
third field. -/
def txtOpt : Str :=
  chars "pub struct S \x7b\n    pub m: Option<i32>,\n    pub w: Option<Foo>,\n    pub z: u64,\n\x7d"

/-- A union named after the seeded primitive `u8`, plus a `Vec<u8>` record:
resolving the union overwrites the primitive entry in the shared table. -/
def txtShadow : Str :=
  chars "pub enum u8 \x7b\n    A,\n    B \x7b x: u16 \x7d,\n\x7d\npub struct S \x7b\n    pub v: Vec<u8>,\n\x7d"

/-- A record with a single growable sequence of 32-byte elements. -/
def txtVec : Str := chars "pub struct S \x7b\n    pub players: Vec<Pubkey>,\n\x7d"

/-- A `Vec` whose element type is a union resolved in the same pass. -/
def txtVecEnum : Str :=
  chars "pub enum E \x7b\n    A,\n    B \x7b x: u8 \x7d,\n\x7d\npub struct S \x7b\n    pub v: Vec<E>,\n\x7d"

/-- A `Vec` whose element type is declared nowhere. -/
def txtVecUnknown : Str := chars "pub struct S \x7b\n    pub v: Vec<Qqq>,\n\x7d"

/-- The result of running `txtEnumGs` on the default table (used to
instantiate the lemmas about successful passes at a concrete input). -/
def resEnumGs : CalcResult :=
  { structSize := 0, calcStrs := .init [], comments := [], msgs := [],
    sizeMap := DEFAULT_SIZE_MAP ++ [(chars "gs", 2)],
    enumSizes := [(chars "gs", (2, chars "1 + u8"))] }

/-- The result of running `txtVec` on the default table. -/
def resVec : CalcResult :=
  { structSize := 324,
    calcStrs := .strs [chars "4 + pubkey * 10"],
    comments := [chars "+ 324 // pub players: Vec<Pubkey>"],
    msgs := [Msg.warn (chars "spotted `Vec`, assuming length 10")],
    sizeMap := DEFAULT_SIZE_MAP,
    enumSizes := [] }

/-! ## Association-list lemmas -/

theorem alistLookup_insert_self {α : Type} (m : List (Str × α)) (k : Str) (v : α) :
    alistLookup (alistInsert m k v) k = some v := by
  induction m with
  | nil => simp [alistInsert, alistLookup]
  | cons p rest ih =>
      obtain ⟨a, b⟩ := p
      by_cases h : a = k
      · simp [alistInsert, h, alistLookup]
      · simp [alistInsert, h, alistLookup, ih]

theorem alistLookup_insert_ne {α : Type} (m : List (Str × α)) (k k' : Str) (v : α)
    (h : k' ≠ k) : alistLookup (alistInsert m k' v) k = alistLookup m k := by
  induction m with
  | nil => simp [alistInsert, alistLookup, h]
  | cons p rest ih =>
      obtain ⟨a, b⟩ := p
      by_cases h2 : a = k'
      · subst h2
        simp [alistInsert, alistLookup, h, fun hh : a = k => h (hh ▸ rfl)]
      · simp [alistInsert, h2, alistLookup, ih]

theorem mem_alistInsert {α : Type} (m : List (Str × α)) (k : Str) (v : α)
    (b : Str × α) (h : b ∈ alistInsert m k v) : b.1 = k ∨ b ∈ m := by
  induction m with
  | nil => simp [alistInsert] at h; simp [h]
  | cons p rest ih =>
      obtain ⟨a, c⟩ := p
      by_cases h2 : a = k
      · simp [alistInsert, h2] at h
        rcases h with h | h
        · exact Or.inl (by simp [h])
        · exact Or.inr (List.mem_cons_of_mem _ h)
      · simp [alistInsert, h2] at h
        rcases h with h | h
        · exact Or.inr (by simp [h])
        · rcases ih h with h3 | h3
          · exact Or.inl h3
          · exact Or.inr (List.mem_cons_of_mem _ h3)

theorem uniqueKeys_insert {α : Type} {m : List (Str × α)} (h : uniqueKeys m)
    (k : Str) (v : α) : uniqueKeys (alistInsert m k v) := by
  induction m with
  | nil => simp [alistInsert, uniqueKeys]
  | cons p rest ih =>
      obtain ⟨a, c⟩ := p
      rw [uniqueKeys, List.pairwise_cons] at h
      by_cases h2 : a = k
      · subst h2
        rw [show alistInsert ((a, c) :: rest) a v = (a, v) :: rest from by
          simp [alistInsert]]
        rw [uniqueKeys, List.pairwise_cons]
        exact ⟨h.1, h.2⟩
      · simp only [alistInsert, if_neg h2]
        rw [uniqueKeys, List.pairwise_cons]
        refine ⟨fun b hb => ?_, ih h.2⟩
        rcases mem_alistInsert _ _ _ _ hb with h3 | h3
        · rw [h3]; exact h2
        · exact h.1 b h3

theorem alistLookup_update_not_mem {α : Type} (m l : List (Str × α)) (k : Str)
    (h : ∀ b ∈ l, b.1 ≠ k) : alistLookup (alistUpdate m l) k = alistLookup m k := by
  induction l generalizing m with
  | nil => rfl
  | cons p rest ih =>
      have step : alistUpdate m (p :: rest) = alistUpdate (alistInsert m p.1 p.2) rest := rfl
      rw [step, ih _ (fun b hb => h b (List.mem_cons_of_mem _ hb))]
      exact alistLookup_insert_ne _ _ _ _ (h p (List.mem_cons_self _ _))

theorem alistLookup_update_mem {α : Type} (m l : List (Str × α)) (k : Str) (v : α)
    (hu : uniqueKeys l) (hm : (k, v) ∈ l) :
    alistLookup (alistUpdate m l) k = some v := by
  induction l generalizing m with
  | nil => cases hm
  | cons p rest ih =>
      rw [uniqueKeys, List.pairwise_cons] at hu
      have step : alistUpdate m (p :: rest) = alistUpdate (alistInsert m p.1 p.2) rest := rfl
      rcases List.mem_cons.1 hm with h | h
      · have hk : p.1 = k := by rw [← h]
        have hv : p.2 = v := by rw [← h]
        have hr : ∀ b ∈ rest, b.1 ≠ k := fun b hb => by
          intro hbk
          exact hu.1 b hb (by rw [hk, hbk])
        rw [step, alistLookup_update_not_mem _ _ _ hr, hk, hv,
          alistLookup_insert_self]
      · exact step ▸ ih _ hu.2 h

theorem uniqueKeys_map_fst {α β : Type} (l : List (Str × α)) (f : Str × α → β)
    (h : uniqueKeys l) : uniqueKeys (l.map (fun p => (p.1, f p))) := by
  rw [uniqueKeys, List.pairwise_map]
  exact h.imp (fun hab => hab)

/-! ## Invariants of a computation pass -/

set_option maxHeartbeats 2000000 in
theorem processStructLine_enumSizes {m : SizeMap} {sess : Session} {st st' : St}
    {l : Str} (h : processStructLine m sess st l = .ok st') :
    st'.enumSizes = st.enumSizes := by
  simp only [processStructLine] at h
  repeat' split at h
  all_goals first
    | exact Except.noConfusion h
    | (injection h with h2; subst h2; rfl)

theorem foldStructLines_enumSizes {m : SizeMap} {sess : Session} :
    ∀ (lines : List Str) (st st' : St),
      List.foldlM (processStructLine m sess) st lines = .ok st' →
      st'.enumSizes = st.enumSizes := by
  intro lines
  induction lines with
  | nil =>
      intro st st' h
      simp only [List.foldlM_nil, pure, Except.pure] at h
      injection h with h2
      rw [h2]
  | cons l rest ih =>
      intro st st' h
      rw [List.foldlM_cons] at h
      cases h1 : processStructLine m sess st l with
      | error e => rw [h1] at h; simp [Bind.bind, Except.bind] at h
      | ok st1 =>
          rw [h1] at h
          simp only [Bind.bind, Except.bind] at h
          exact (ih st1 st' h).trans (processStructLine_enumSizes h1)

theorem processStructSection_enumSizes {m : SizeMap} {sess : Session}
    {st st' : St} {sect : Str} (h : processStructSection m sess st sect = .ok st') :
    st'.enumSizes = st.enumSizes := by
  unfold processStructSection at h
  exact foldStructLines_enumSizes (splitOnChar '\n' sect)
    { st with calcStrs := .strs [] } st' h

theorem processSection_unique {m : SizeMap} {sess : Session} {st st' : St}
    {p : Sect} (hu : uniqueKeys st.enumSizes)
    (h : processSection m sess st p = .ok st') : uniqueKeys st'.enumSizes := by
  simp only [processSection] at h
  split at h
  · injection h with h2; subst h2; exact hu
  · split at h
    · simp only [processEnumSection] at h
      split at h
      · exact Except.noConfusion h
      · split at h
        · exact Except.noConfusion h
        · injection h with h2; subst h2
          exact uniqueKeys_insert hu _ _
    · split at h
      · rw [processStructSection_enumSizes h]; exact hu
      · injection h with h2; subst h2; exact hu

theorem runSections_unique_aux {m : SizeMap} {sess : Session} :
    ∀ (secs : List Sect) (st0 st : St), uniqueKeys st0.enumSizes →
      List.foldlM (processSection m sess) st0 secs = .ok st →
      uniqueKeys st.enumSizes := by
  intro secs
  induction secs with
  | nil =>
      intro st0 st hu h
      simp only [List.foldlM_nil, pure, Except.pure] at h
      injection h with h2
      rw [← h2]; exact hu
  | cons p rest ih =>
      intro st0 st hu h
      rw [List.foldlM_cons] at h
      cases h1 : processSection m sess st0 p with
      | error e => rw [h1] at h; simp [Bind.bind, Except.bind] at h
      | ok st1 =>
          rw [h1] at h
          simp only [Bind.bind, Except.bind] at h
          exact ih st1 st (processSection_unique hu h1) h

theorem calculate_ok_elim {t : Str} {s : Session} {m : SizeMap} {r : CalcResult}
    (h : calculate_struct_size t s m = .ok r) :
    runSections m s (insSort sectKey (splitSections t).2) =
      .ok { enumSizes := r.enumSizes, structSize := r.structSize,
            calcStrs := r.calcStrs, comments := r.comments, msgs := r.msgs } ∧
    r.sizeMap = alistUpdate m (r.enumSizes.map (fun p => (p.1, p.2.1))) := by
  unfold calculate_struct_size at h
  split at h
  · exact Except.noConfusion h
  · next st hst =>
      injection h with h2
      subst h2
      exact ⟨hst, rfl⟩

theorem calculate_ok_unique {t : Str} {s : Session} {m : SizeMap} {r : CalcResult}
    (h : calculate_struct_size t s m = .ok r) : uniqueKeys r.enumSizes := by
  have h2 : uniqueKeys initialSt.enumSizes := List.Pairwise.nil
  exact runSections_unique_aux (insSort sectKey (splitSections t).2) initialSt
    { enumSizes := r.enumSizes, structSize := r.structSize, calcStrs := r.calcStrs,
      comments := r.comments, msgs := r.msgs } h2 (calculate_ok_elim h).1

/-! ## Stable-sort characterisation for the section ordering -/

theorem insSorted_append {α : Type} (key : α → Nat) (x : α) :
    ∀ (a b : List α), (∀ y ∈ a, key y < key x) →
      insSorted key x (a ++ b) = a ++ insSorted key x b := by
  intro a
  induction a with
  | nil => intro b _; rfl
  | cons y ys ih =>
      intro b h
      have hy : key y < key x := h y (List.mem_cons_self _ _)
      simp only [List.cons_append, insSorted, if_pos hy, List.append_eq]
      rw [ih b (fun z hz => h z (List.mem_cons_of_mem _ hz))]

theorem insSorted_front {α : Type} (key : α → Nat) (x : α) :
    ∀ (b : List α), (∀ y ∈ b, ¬ key y < key x) → insSorted key x b = x :: b := by
  intro b h
  cases b with
  | nil => rfl
  | cons y ys =>
      simp only [insSorted, if_neg (h y (List.mem_cons_self _ _))]

theorem insSort_sectKey_split :
    ∀ (l : List Sect), (∀ p ∈ l, sectKey p = 1 ∨ sectKey p = 2 ∨ sectKey p = 3) →
      insSort sectKey l =
        l.filter (fun p => sectKey p == 1) ++
          (l.filter (fun p => sectKey p == 2) ++
            l.filter (fun p => sectKey p == 3)) := by
  intro l
  induction l with
  | nil => intro _; rfl
  | cons x xs ih =>
      intro h
      have hx := h x (List.mem_cons_self _ _)
      have hxs : ∀ p ∈ xs, sectKey p = 1 ∨ sectKey p = 2 ∨ sectKey p = 3 :=
        fun p hp => h p (List.mem_cons_of_mem _ hp)
      have keyf : ∀ i : Nat, ∀ y ∈ xs.filter (fun p => sectKey p == i), sectKey y = i := by
        intro i y hy
        have := List.of_mem_filter hy
        simpa using this
      rw [insSort, ih hxs]
      rcases hx with h1 | h2 | h3
      · rw [insSorted_front]
        · simp [List.filter_cons, h1, List.append_assoc]
        · intro y hy
          rcases List.mem_append.1 hy with hy | hy
          · rw [keyf 1 y hy, h1]; omega
          · rcases List.mem_append.1 hy with hy | hy
            · rw [keyf 2 y hy, h1]; omega
            · rw [keyf 3 y hy, h1]; omega
      · rw [insSorted_append _ _ (xs.filter (fun p => sectKey p == 1)) _ ?_]
        · rw [insSorted_front]
          · simp [List.filter_cons, h2, List.append_assoc]
          · intro y hy
            rcases List.mem_append.1 hy with hy | hy
            · rw [keyf 2 y hy, h2]; omega
            · rw [keyf 3 y hy, h2]; omega
        · intro y hy
          rw [keyf 1 y hy, h2]; omega
      · rw [← List.append_assoc,
          insSorted_append _ _ _ (xs.filter (fun p => sectKey p == 3)) ?_]
        · rw [insSorted_front]
          · simp [List.filter_cons, h3, List.append_assoc]
          · intro y hy
            rw [keyf 3 y hy, h3]; omega
        · intro y hy
          rcases List.mem_append.1 hy with hy | hy
          · rw [keyf 1 y hy, h3]; omega
          · rw [keyf 2 y hy, h3]; omega

theorem stripMatchCI_lower {pat : Str} :
    ∀ (s : Str) (r : Str × Str), stripMatchCI s pat = some r →
      lowerStr r.1 = lowerStr pat := by
  induction pat with
  | nil =>
      intro s r h
      simp [stripMatchCI] at h
      rw [← h]
  | cons p ps ih =>
      intro s r h
      cases s with
      | nil => simp [stripMatchCI] at h
      | cons c s' =>
          simp only [stripMatchCI] at h
          split at h
          · cases h2 : stripMatchCI s' ps with
            | none => rw [h2] at h; simp at h
            | some q =>
                rw [h2] at h
                simp only [Option.map_some'] at h
                injection h with h3
                rw [← h3]
                have h4 := ih s' q h2
                simp only [lowerStr, List.map_cons] at h4 ⊢
                refine congrArg₂ _ ?_ h4
                assumption
          · simp at h

theorem splitSecFuel_keys :
    ∀ (fuel : Nat) (s : Str) (p : Sect), p ∈ (splitSecFuel fuel s).2 →
      lowerStr p.1 = chars "pub struct" ∨ lowerStr p.1 = chars "pub enum" ∨
        lowerStr p.1 = chars "impl" := by
  intro fuel
  induction fuel with
  | zero => intro s p hp; simp [splitSecFuel] at hp
  | succ n ih =>
      intro s p hp
      cases s with
      | nil => simp [splitSecFuel] at hp
      | cons c rest =>
          simp only [splitSecFuel] at hp
          cases h1 : stripMatchCI (c :: rest) (chars "pub struct") with
          | some r =>
              rw [h1] at hp
              simp only [List.mem_cons] at hp
              rcases hp with hp | hp
              · left
                rw [hp]
                exact (stripMatchCI_lower _ _ h1).trans (by decide)
              · exact ih r.2 p hp
          | none =>
              rw [h1] at hp
              cases h2 : stripMatchCI (c :: rest) (chars "pub enum") with
              | some r =>
                  rw [h2] at hp
                  simp only [List.mem_cons] at hp
                  rcases hp with hp | hp
                  · right; left
                    rw [hp]
                    exact (stripMatchCI_lower _ _ h2).trans (by decide)
                  · exact ih r.2 p hp
              | none =>
                  rw [h2] at hp
                  cases h3 : stripMatchCI (c :: rest) (chars "impl") with
                  | some r =>
                      rw [h3] at hp
                      simp only [List.mem_cons] at hp
                      rcases hp with hp | hp
                      · right; right
                        rw [hp]
                        exact (stripMatchCI_lower _ _ h3).trans (by decide)
                      · exact ih r.2 p hp
                  | none =>
                      rw [h3] at hp
                      exact ih rest p hp

theorem sectKey_of_splitSections {t : Str} {p : Sect}
    (hp : p ∈ (splitSections t).2) :
    sectKey p = 1 ∨ sectKey p = 2 ∨ sectKey p = 3 := by
  rcases splitSecFuel_keys _ _ p hp with h | h | h
  · right; left
    simp only [sectKey, h]
    decide
  · left
    simp only [sectKey, h]
    decide
  · right; right
    simp only [sectKey, h]
    decide

/-! ## Truncation of union bodies at the first closing brace -/

theorem any_dropWhile_false {p q : Char → Bool} :
    ∀ {l : Str}, l.any p = false → (l.dropWhile q).any p = false := by
  intro l
  induction l with
  | nil => intro h; exact h
  | cons c rest ih =>
      intro h
      simp only [List.any_cons, Bool.or_eq_false_iff] at h
      by_cases hq : q c = true
      · rw [List.dropWhile_cons_of_pos hq]
        exact ih h.2
      · rw [List.dropWhile_cons_of_neg (by simpa using hq)]
        simp [List.any_cons, h.1, h.2]

theorem pyStrip_any_false {p : Char → Bool} {s : Str} (h : s.any p = false) :
    (pyStrip s).any p = false := by
  unfold pyStrip
  rw [List.any_reverse]
  apply any_dropWhile_false
  rw [List.any_reverse]
  exact any_dropWhile_false h

theorem breakAtChar_eq_none {c : Char} :
    ∀ {s : Str}, s.any (· = c) = false → breakAtChar c s = none := by
  intro s
  induction s with
  | nil => intro _; rfl
  | cons x rest ih =>
      intro h
      simp only [List.any_cons, Bool.or_eq_false_iff] at h
      have hx : ¬ x = c := by simpa using h.1
      simp only [breakAtChar, if_neg hx, ih h.2, Option.map_none']

theorem svAux_len_one :
    ∀ (t : Str) (d : Int) (cur : Str), t.any (· = '\x7d') = false → 0 < d →
      (svAux d cur t).length = 1 := by
  intro t
  induction t with
  | nil => intro d cur _ _; rfl
  | cons c rest ih =>
      intro d cur hn hd
      simp only [List.any_cons, Bool.or_eq_false_iff] at hn
      have hc : ¬ c = '\x7d' := by simpa using hn.1
      simp only [svAux]
      by_cases h1 : c = '\x7b'
      · rw [if_pos h1]
        exact ih (d + 1) _ hn.2 (by omega)
      · rw [if_neg h1, if_neg hc]
        have h3 : ¬ (c = ',' ∧ d = 0) := fun hcd => by omega
        rw [if_neg h3]
        exact ih d _ hn.2 hd

theorem svAux_ne_nil : ∀ (t : Str) (d : Int) (cur : Str), svAux d cur t ≠ [] := by
  intro t
  induction t with
  | nil => intro d cur; simp [svAux]
  | cons c rest ih =>
      intro d cur
      simp only [svAux]
      by_cases h1 : c = '\x7b'
      · rw [if_pos h1]; exact ih _ _
      · rw [if_neg h1]
        by_cases h2 : c = '\x7d'
        · rw [if_pos h2]; exact ih _ _
        · rw [if_neg h2]
          by_cases h3 : c = ',' ∧ d = 0
          · rw [if_pos h3]; exact List.cons_ne_nil _ _
          · rw [if_neg h3]; exact ih _ _

theorem svAux_dropLast_no_brace :
    ∀ (t : Str) (cur : Str), t.any (· = '\x7d') = false →
      cur.any (· = '\x7b') = false →
      ∀ v ∈ (svAux 0 cur t).dropLast, v.any (· = '\x7b') = false := by
  intro t
  induction t with
  | nil => intro cur _ _ v hv; simp [svAux] at hv
  | cons c rest ih =>
      intro cur hn hc v hv
      simp only [List.any_cons, Bool.or_eq_false_iff] at hn
      have hcd : ¬ c = '\x7d' := by simpa using hn.1
      simp only [svAux] at hv
      by_cases h1 : c = '\x7b'
      · rw [if_pos h1] at hv
        have hl := svAux_len_one rest ((0 : Int) + 1) (c :: cur) hn.2 (by omega)
        cases hx : svAux ((0 : Int) + 1) (c :: cur) rest with
        | nil => rw [hx] at hv; simp at hv
        | cons a l =>
            rw [hx] at hl hv
            cases l with
            | nil => simp at hv
            | cons b l2 => simp at hl
      · rw [if_neg h1, if_neg hcd] at hv
        by_cases h3 : c = ','
        · rw [if_pos (by exact ⟨h3, trivial⟩)] at hv
          have hne := svAux_ne_nil rest 0 []
          cases hx : svAux 0 [] rest with
          | nil => exact absurd hx hne
          | cons a l =>
              rw [hx] at hv
              rw [List.dropLast_cons₂] at hv
              rcases List.mem_cons.1 hv with hv | hv
              · rw [hv]
                exact pyStrip_any_false (by rw [List.any_reverse]; exact hc)
              · have := ih [] hn.2 rfl v (by rw [hx]; exact hv)
                exact this
        · rw [if_neg (fun hq => h3 hq.1)] at hv
          refine ih (c :: cur) hn.2 ?_ v hv
          simp only [List.any_cons, Bool.or_eq_false_iff]
          exact ⟨by simpa using h1, hc⟩

theorem split_variants_truncated {t : Str} (hn : t.any (· = '\x7d') = false) :
    ∀ v ∈ (split_variants t).dropLast, breakAtChar '\x7b' (pyStrip v) = none := by
  intro v hv
  have h1 := svAux_dropLast_no_brace t [] hn rfl v hv
  exact breakAtChar_eq_none (pyStrip_any_false h1)

/-! ## Behaviour of the union-variant resolver -/

theorem isOk_map {ε α β : Type} (f : α → β) (e : Except ε α) :
    (e.map f).isOk = e.isOk := by
  cases e <;> rfl

theorem resolveVariantFields_not_ok {m : SizeMap} :
    ∀ (fields : List Str) (f : Str), f ∈ fields →
      (match splitOnChar ':' f with
       | [_, t] => alistLookup m (lowerStr (pyStrip t)) = none
       | _ => True) →
      (resolveVariantFields m fields).isOk = false := by
  intro fields
  induction fields with
  | nil => intro f hf _; cases hf
  | cons g rest ih =>
      intro f hf hbad
      rcases List.mem_cons.1 hf with hf | hf
      · subst hf
        simp only [resolveVariantFields]
        cases hs : splitOnChar ':' f with
        | nil => rfl
        | cons a l =>
            cases l with
            | nil => rfl
            | cons b l2 =>
                cases l2 with
                | nil =>
                    rw [hs] at hbad
                    simp only at hbad
                    simp only [hbad]
                    rfl
                | cons d l3 => rfl
      · simp only [resolveVariantFields]
        cases hs : splitOnChar ':' g with
        | nil => rfl
        | cons a l =>
            cases l with
            | nil => rfl
            | cons b l2 =>
                cases l2 with
                | nil =>
                    cases hl : alistLookup m (lowerStr (pyStrip b)) with
                    | none =>
                        simp only [hl]
                        rfl
                    | some sz =>
                        simp only [hl, isOk_map]
                        exact ih f hf hbad
                | cons d l3 => rfl

theorem findSub_single_before {c : Char} :
    ∀ (s : Str) (p : Str × Str), findSub [c] s = some p →
      p.1.any (· = c) = false := by
  intro s
  induction s with
  | nil =>
      intro p h
      simp [findSub, stripMatch] at h
  | cons x rest ih =>
      intro p h
      simp only [findSub] at h
      by_cases hx : x = c
      · have h1 : stripMatch (x :: rest) [c] = some rest := by
          simp [stripMatch, hx]
        simp only [h1] at h
        injection h with h2
        rw [← h2]
        rfl
      · have h1 : stripMatch (x :: rest) [c] = none := by
          simp [stripMatch, hx]
        simp only [h1] at h
        cases h2 : findSub [c] rest with
        | none => simp [h2] at h
        | some q =>
            simp only [h2, Option.map_some'] at h
            injection h with h3
            rw [← h3]
            simp only [List.any_cons, Bool.or_eq_false_iff]
            exact ⟨by simpa using hx, ih q h2⟩

theorem searchEnumDecl_no_brace {s : Str} {nb : Str × Str}
    (h : searchEnumDecl s = some nb) : nb.2.any (· = '\x7d') = false := by
  unfold searchEnumDecl at h
  cases h1 : findSub (chars "pub enum ") s with
  | none => simp [h1] at h
  | some q1 =>
      simp only [h1] at h
      cases h2 : findSub [' ', '\x7b'] q1.2 with
      | none => simp [h2] at h
      | some q2 =>
          simp only [h2] at h
          cases h3 : findSub ['\x7d'] q2.2 with
          | none => simp [h3] at h
          | some q3 =>
              simp only [h3] at h
              injection h with h4
              rw [← h4]
              exact findSub_single_before _ _ h3

theorem processEnumVariants_append {m : SizeMap} {v : Str} {fields fcalc : List Str}
    {fsz : Int} (hf : variantFieldsOf v = some fields)
    (hr : resolveVariantFields m fields = .ok (fsz, fcalc)) :
    ∀ (vs : List Str) (sz s' : Int) (cstr c' : Str),
      processEnumVariants m vs sz cstr = .ok (s', c') →
      processEnumVariants m (vs ++ [v]) sz cstr =
        .ok (max s' (1 + fsz), chars "1 + " ++ joinSep (chars " + ") fcalc) := by
  have hmain : ∀ (sz : Int) (cstr : Str),
      processEnumVariants m [v] sz cstr =
        .ok (max sz (1 + fsz), chars "1 + " ++ joinSep (chars " + ") fcalc) := by
    intro sz cstr
    unfold variantFieldsOf at hf
    cases hb : breakAtChar '\x7b' (pyStrip v) with
    | none => simp [hb] at hf
    | some br =>
        simp only [hb, Option.map_some'] at hf
        injection hf with hf2
        simp only [processEnumVariants, hb, hf2, hr]
  intro vs
  induction vs with
  | nil =>
      intro sz s' cstr c' h
      simp only [processEnumVariants] at h
      injection h with h2
      injection h2 with ha hb'
      subst ha
      subst hb'
      simpa using hmain sz cstr
  | cons w ws ih =>
      intro sz s' cstr c' h
      simp only [List.cons_append, processEnumVariants] at h ⊢
      cases hb : breakAtChar '\x7b' (pyStrip w) with
      | none =>
          simp only [hb] at h ⊢
          exact ih _ _ _ _ h
      | some br =>
          simp only [hb] at h ⊢
          cases hv2 : resolveVariantFields m
              (splitOnChar ',' (dropFromLastChar '\x7d' br.2)) with
          | error e =>
              simp only [hv2] at h
              exact Except.noConfusion h
          | ok q =>
              simp only [hv2] at h ⊢
              exact ih _ _ _ _ h

/-! ## Per-branch behaviour of the struct line processor -/

theorem processStructLine_unknown_plain (m : SizeMap) (sess : Session) (st : St)
    (raw p0 p1 ty : Str)
    (h1 : (pyStrip raw).isEmpty = false)
    (h2 : startsWithStr (pyStrip raw) (chars "//") = false)
    (h3 : findSub (chars "//") (pyStrip raw) = none)
    (h4 : splitOnChar ':' (pyStrip raw) = [p0, p1])
    (h5 : pyStrip (pyRstripChar ';' (pyRstripChar ',' (pyStrip p1))) = ty)
    (h6 : startsWithStr (lowerStr ty) (chars "vec<") = false)
    (h7 : startsWithStr (lowerStr ty) (chars "option<") = false)
    (h8 : startsWithStr ty (chars "string") = false)
    (h9 : (startsWithStr ty (chars "[") && endsWithStr ty (chars "]")) = false)
    (h10 : alistLookup st.enumSizes (lowerStr ty) = none)
    (h11 : alistLookup m (lowerStr ty) = none) :
    processStructLine m sess st raw = .ok { st with
      msgs := st.msgs ++ [Msg.err (chars "no type: \"" ++ ty ++
        chars "\" in byte size map")] } := by
  simp [processStructLine, h1, h2, h3, h4, h5, h6, h7, h8, h9, h10, h11]

theorem processStructLine_option_unresolved (m : SizeMap) (sess : Session)
    (st : St) (raw p0 p1 ty base : Str)
    (h1 : (pyStrip raw).isEmpty = false)
    (h2 : startsWithStr (pyStrip raw) (chars "//") = false)
    (h3 : findSub (chars "//") (pyStrip raw) = none)
    (h4 : splitOnChar ':' (pyStrip raw) = [p0, p1])
    (h5 : pyStrip (pyRstripChar ';' (pyRstripChar ',' (pyStrip p1))) = ty)
    (h6 : startsWithStr (lowerStr ty) (chars "vec<") = false)
    (h7 : startsWithStr (lowerStr ty) (chars "option<") = true)
    (h8 : searchAngleInner (chars "option<") ty = some base)
    (h9 : alistLookup m (lowerStr base) = none)
    (h10 : alistLookup st.enumSizes (lowerStr base) = none) :
    processStructLine m sess st raw = .ok { st with
      structSize := st.structSize + 1,
      calcStrs := calcAppend st.calcStrs (chars "1 + " ++ lowerStr base),
      comments := st.comments ++ [chars "+ " ++ intToChars 1 ++ chars " // " ++
        p0 ++ chars ": " ++ ty],
      msgs := st.msgs ++ [Msg.err (noTypeFieldMsg base (pyStrip raw))] } := by
  simp [processStructLine, safe_get_size, h1, h2, h3, h4, h5, h6, h7, h8, h9, h10]

theorem processStructLine_option_resolved (m : SizeMap) (sess : Session)
    (st : St) (raw p0 p1 ty base : Str) (v : Int)
    (h1 : (pyStrip raw).isEmpty = false)
    (h2 : startsWithStr (pyStrip raw) (chars "//") = false)
    (h3 : findSub (chars "//") (pyStrip raw) = none)
    (h4 : splitOnChar ':' (pyStrip raw) = [p0, p1])
    (h5 : pyStrip (pyRstripChar ';' (pyRstripChar ',' (pyStrip p1))) = ty)
    (h6 : startsWithStr (lowerStr ty) (chars "vec<") = false)
    (h7 : startsWithStr (lowerStr ty) (chars "option<") = true)
    (h8 : searchAngleInner (chars "option<") ty = some base)
    (h9 : alistLookup m (lowerStr base) = some v) :
    processStructLine m sess st raw = .ok { st with
      structSize := st.structSize + (1 + v),
      calcStrs := calcAppend st.calcStrs (chars "1 + " ++ lowerStr base),
      comments := st.comments ++ [chars "+ " ++ intToChars (1 + v) ++
        chars " // " ++ p0 ++ chars ": " ++ ty] } := by
  simp [processStructLine, safe_get_size, h1, h2, h3, h4, h5, h6, h7, h8, h9]

theorem processStructLine_vec_missing (m : SizeMap) (sess : Session) (st : St)
    (raw p0 p1 ty base : Str)
    (h1 : (pyStrip raw).isEmpty = false)
    (h2 : startsWithStr (pyStrip raw) (chars "//") = false)
    (h3 : findSub (chars "//") (pyStrip raw) = none)
    (h4 : splitOnChar ':' (pyStrip raw) = [p0, p1])
    (h5 : pyStrip (pyRstripChar ';' (pyRstripChar ',' (pyStrip p1))) = ty)
    (h6 : startsWithStr (lowerStr ty) (chars "vec<") = true)
    (h7 : searchAngleInner (chars "vec<") ty = some base)
    (h8 : alistLookup m (lowerStr base) = none) :
    processStructLine m sess st raw = .error (chars "KeyError: " ++ lowerStr base) := by
  simp [processStructLine, h1, h2, h3, h4, h5, h6, h7, h8]

theorem safe_get_size_enum_hit (m : SizeMap) (es : EnumSizes) (base line : Str)
    (v : Int) (c : Str)
    (h1 : alistLookup m (lowerStr base) = none)
    (h2 : alistLookup es (lowerStr base) = some (v, c)) :
    safe_get_size m es base line = (v, []) := by
  simp [safe_get_size, h1, h2]

/-! ## Lookup characterisation of the merged table -/

theorem alistLookup_none_forall {α : Type} :
    ∀ (l : List (Str × α)) (k : Str), alistLookup l k = none → ∀ p ∈ l, p.1 ≠ k := by
  intro l
  induction l with
  | nil => intro k _ p hp; cases hp
  | cons q rest ih =>
      intro k h p hp
      obtain ⟨a, b⟩ := q
      by_cases ha : a = k
      · simp [alistLookup, ha] at h
      · rcases List.mem_cons.1 hp with hp | hp
        · rw [hp]; exact ha
        · exact ih k (by simpa [alistLookup, ha] using h) p hp

theorem alistLookup_some_mem {α : Type} :
    ∀ (l : List (Str × α)) (k : Str) (v : α), alistLookup l k = some v →
      (k, v) ∈ l := by
  intro l
  induction l with
  | nil => intro k v h; cases h
  | cons q rest ih =>
      intro k v h
      obtain ⟨a, b⟩ := q
      by_cases ha : a = k
      · subst ha
        simp [alistLookup] at h
        rw [← h]
        exact List.mem_cons_self _ _
      · simp [alistLookup, ha] at h
        exact List.mem_cons_of_mem _ (ih k v h)

theorem alistInsert_of_lookup {α : Type} :
    ∀ (l : List (Str × α)) (k : Str) (v : α), alistLookup l k = some v →
      alistInsert l k v = l := by
  intro l
  induction l with
  | nil => intro k v h; cases h
  | cons q rest ih =>
      intro k v h
      obtain ⟨a, b⟩ := q
      by_cases ha : a = k
      · subst ha
        simp [alistLookup] at h
        simp [alistInsert, h]
      · simp [alistLookup, ha] at h
        simp [alistInsert, ha, ih k v h]

theorem alistUpdate_self {α : Type} :
    ∀ (E l : List (Str × α)), (∀ p ∈ E, alistLookup l p.1 = some p.2) →
      alistUpdate l E = l := by
  intro E
  induction E with
  | nil => intro l _; rfl
  | cons q rest ih =>
      intro l h
      have h1 : alistUpdate l (q :: rest) = alistUpdate (alistInsert l q.1 q.2) rest := rfl
      rw [h1, alistInsert_of_lookup l q.1 q.2 (h q (List.mem_cons_self _ _))]
      exact ih l (fun p hp => h p (List.mem_cons_of_mem _ hp))

theorem mergedLookup {m : SizeMap} {ES : EnumSizes}
    (hu : uniqueKeys ES) (hfresh : ∀ p ∈ ES, alistLookup m p.1 = none) :
    ∀ k, alistLookup (alistUpdate m (ES.map (fun p => (p.1, p.2.1)))) k =
      match alistLookup m k with
      | some v => some v
      | none => (alistLookup ES k).map (fun q => q.1) := by
  intro k
  cases hm : alistLookup m k with
  | some v =>
      have hnot : ∀ p ∈ ES.map (fun p => (p.1, p.2.1)), p.1 ≠ k := by
        intro p hp
        rcases List.mem_map.1 hp with ⟨q, hq, rfl⟩
        intro hk
        have h0 := hfresh q hq
        rw [(show q.1 = k from hk)] at h0
        rw [h0] at hm
        exact Option.noConfusion hm
      rw [alistLookup_update_not_mem _ _ _ hnot, hm]
  | none =>
      cases hes : alistLookup ES k with
      | some q =>
          have hmem : (k, q.1) ∈ ES.map (fun p => (p.1, p.2.1)) :=
            List.mem_map.2 ⟨(k, q), alistLookup_some_mem _ _ _ hes, rfl⟩
          rw [alistLookup_update_mem _ _ _ _ (uniqueKeys_map_fst _ _ hu) hmem]
          simp [hes]
      | none =>
          have hnot : ∀ p ∈ ES.map (fun p => (p.1, p.2.1)), p.1 ≠ k := by
            intro p hp
            rcases List.mem_map.1 hp with ⟨q2, hq2, rfl⟩
            exact alistLookup_none_forall ES k hes q2 hq2
          rw [alistLookup_update_not_mem _ _ _ hnot, hm]
          simp [hes]

theorem safe_get_size_merged {m : SizeMap} {ES : EnumSizes}
    (hu : uniqueKeys ES) (hfresh : ∀ p ∈ ES, alistLookup m p.1 = none) :
    ∀ (b l : Str),
      safe_get_size (alistUpdate m (ES.map (fun p => (p.1, p.2.1)))) ES b l =
        safe_get_size m ES b l := by
  intro b l
  have hl := mergedLookup hu hfresh (lowerStr b)
  unfold safe_get_size
  rw [hl]
  cases hm : alistLookup m (lowerStr b) with
  | some v => simp
  | none =>
      cases hes : alistLookup ES (lowerStr b) with
      | some q => simp [hes]
      | none => simp [hes]

/-! ## Rerunning on the merged table: resolver simulation -/

theorem mergedLookup_some {m : SizeMap} {ES : EnumSizes}
    (hu : uniqueKeys ES) (hfresh : ∀ p ∈ ES, alistLookup m p.1 = none)
    {k : Str} {v : Int} (h : alistLookup m k = some v) :
    alistLookup (alistUpdate m (ES.map (fun p => (p.1, p.2.1)))) k = some v := by
  rw [mergedLookup hu hfresh k, h]

theorem resolveVariantFields_mono {m : SizeMap} {ES : EnumSizes}
    (hu : uniqueKeys ES) (hfresh : ∀ p ∈ ES, alistLookup m p.1 = none) :
    ∀ (fs : List Str) (p : Int × List Str),
      resolveVariantFields m fs = .ok p →
      resolveVariantFields (alistUpdate m (ES.map (fun p => (p.1, p.2.1)))) fs =
        .ok p := by
  intro fs
  induction fs with
  | nil => intro p h; exact h
  | cons f rest ih =>
      intro p h
      simp only [resolveVariantFields] at h ⊢
      cases hs : splitOnChar ':' f with
      | nil => simp only [hs] at h; exact Except.noConfusion h
      | cons a l =>
          cases l with
          | nil => simp only [hs] at h; exact Except.noConfusion h
          | cons b l2 =>
              cases l2 with
              | cons d l3 => simp only [hs] at h; exact Except.noConfusion h
              | nil =>
                  simp only [hs] at h ⊢
                  cases hlk : alistLookup m (lowerStr (pyStrip b)) with
                  | none => simp only [hlk] at h; exact Except.noConfusion h
                  | some sz =>
                      simp only [hlk] at h
                      simp only [mergedLookup_some hu hfresh hlk]
                      cases hr : resolveVariantFields m rest with
                      | error e =>
                          simp only [hr, Except.map] at h
                          exact Except.noConfusion h
                      | ok q =>
                          simp only [hr, Except.map] at h
                          simp only [ih q hr, Except.map]
                          exact h

theorem processEnumVariants_mono {m : SizeMap} {ES : EnumSizes}
    (hu : uniqueKeys ES) (hfresh : ∀ p ∈ ES, alistLookup m p.1 = none) :
    ∀ (vs : List Str) (sz : Int) (cstr : Str) (p : Int × Str),
      processEnumVariants m vs sz cstr = .ok p →
      processEnumVariants (alistUpdate m (ES.map (fun p => (p.1, p.2.1)))) vs sz
        cstr = .ok p := by
  intro vs
  induction vs with
  | nil => intro sz cstr p h; exact h
  | cons v rest ih =>
      intro sz cstr p h
      simp only [processEnumVariants] at h ⊢
      cases hb : breakAtChar '\x7b' (pyStrip v) with
      | none =>
          simp only [hb] at h ⊢
          exact ih _ _ _ h
      | some br =>
          simp only [hb] at h ⊢
          cases hr : resolveVariantFields m
              (splitOnChar ',' (dropFromLastChar '\x7d' br.2)) with
          | error e => simp only [hr] at h; exact Except.noConfusion h
          | ok q =>
              simp only [hr] at h
              simp only [resolveVariantFields_mono hu hfresh _ q hr]
              exact ih _ _ _ h

theorem processEnumSection_mono {m : SizeMap} {ES : EnumSizes}
    (hu : uniqueKeys ES) (hfresh : ∀ p ∈ ES, alistLookup m p.1 = none)
    {st st' : St} {sect : Str} (h : processEnumSection m st sect = .ok st') :
    processEnumSection (alistUpdate m (ES.map (fun p => (p.1, p.2.1)))) st sect =
      .ok st' := by
  simp only [processEnumSection] at h ⊢
  cases hs : searchEnumDecl sect with
  | none => simp only [hs] at h; exact Except.noConfusion h
  | some nb =>
      simp only [hs] at h ⊢
      cases hv : processEnumVariants m (split_variants (pyStrip nb.2)) 1
          (chars "1") with
      | error e => simp only [hv] at h; exact Except.noConfusion h
      | ok p =>
          simp only [hv] at h
          simp only [processEnumVariants_mono hu hfresh _ _ _ _ hv]
          exact h

set_option maxHeartbeats 4000000 in
theorem processStructLine_mono {m : SizeMap} {ES : EnumSizes}
    (hu : uniqueKeys ES) (hfresh : ∀ p ∈ ES, alistLookup m p.1 = none)
    {sess : Session} {st st' : St} {raw : Str} (hES : st.enumSizes = ES)
    (h : processStructLine m sess st raw = .ok st') :
    processStructLine (alistUpdate m (ES.map (fun p => (p.1, p.2.1)))) sess st
      raw = .ok st' := by
  have hlook := mergedLookup hu hfresh
  have hsafe := safe_get_size_merged hu hfresh
  simp only [processStructLine, hES] at h ⊢
  repeat' split at h
  all_goals first
    | exact Except.noConfusion h
    | simp_all [hlook, hsafe]

/-! ## Keyword occurrences in sections -/

theorem startsWithStr_append_self : ∀ (a u : Str), startsWithStr (a ++ u) a = true := by
  intro a
  induction a with
  | nil => intro u; simp [startsWithStr]
  | cons c rest ih =>
      intro u
      simp only [List.cons_append, startsWithStr]
      simp [ih u]

theorem containsSub_self_append (a u : Str) : containsSub a (a ++ u) = true := by
  cases a with
  | nil => cases u <;> simp [containsSub, startsWithStr]
  | cons c rest =>
      simp only [List.cons_append, containsSub]
      have h := startsWithStr_append_self (c :: rest) u
      simp only [List.cons_append] at h
      simp [h]

theorem startsWithStr_append_of : ∀ (pat a u : Str),
    startsWithStr a pat = true → startsWithStr (a ++ u) pat = true := by
  intro pat
  induction pat with
  | nil => intro a u _; simp [startsWithStr]
  | cons p ps ih =>
      intro a u h
      cases a with
      | nil => simp [startsWithStr] at h
      | cons c rest =>
          simp only [startsWithStr, Bool.and_eq_true] at h
          simp only [List.cons_append, startsWithStr, Bool.and_eq_true]
          exact ⟨h.1, ih rest u h.2⟩

theorem stripMatchCI_of_startsWith : ∀ (pat s : Str),
    startsWithStr s pat = true → ∃ r, stripMatchCI s pat = some r := by
  intro pat
  induction pat with
  | nil => intro s _; exact ⟨([], s), by simp [stripMatchCI]⟩
  | cons p ps ih =>
      intro s h
      cases s with
      | nil => simp [startsWithStr] at h
      | cons c rest =>
          simp only [startsWithStr, Bool.and_eq_true, decide_eq_true_eq] at h
          obtain ⟨r, hr⟩ := ih rest h.2
          refine ⟨(c :: r.1, r.2), ?_⟩
          simp [stripMatchCI, h.1, hr]

theorem stripMatchCI_len : ∀ (pat s : Str) (r : Str × Str),
    stripMatchCI s pat = some r → s.length = pat.length + r.2.length := by
  intro pat
  induction pat with
  | nil =>
      intro s r h
      simp [stripMatchCI] at h
      rw [← h]
      simp
  | cons p ps ih =>
      intro s r h
      cases s with
      | nil => simp [stripMatchCI] at h
      | cons c rest =>
          simp only [stripMatchCI] at h
          split at h
          · cases h2 : stripMatchCI rest ps with
            | none => rw [h2] at h; simp at h
            | some q =>
                rw [h2] at h
                simp only [Option.map_some'] at h
                injection h with h3
                rw [← h3]
                simp [ih rest q h2]
                omega
          · simp at h

theorem splitSecFuel_pre_prefix :
    ∀ (fuel : Nat) (s : Str), ∃ u, s = (splitSecFuel fuel s).1 ++ u := by
  intro fuel
  induction fuel with
  | zero => intro s; exact ⟨[], by simp [splitSecFuel]⟩
  | succ n ih =>
      intro s
      cases s with
      | nil => exact ⟨[], rfl⟩
      | cons c rest =>
          simp only [splitSecFuel]
          cases h1 : stripMatchCI (c :: rest) (chars "pub struct") with
          | some r => exact ⟨c :: rest, rfl⟩
          | none =>
          cases h2 : stripMatchCI (c :: rest) (chars "pub enum") with
          | some r => exact ⟨c :: rest, rfl⟩
          | none =>
          cases h3 : stripMatchCI (c :: rest) (chars "impl") with
          | some r => exact ⟨c :: rest, rfl⟩
          | none =>
              obtain ⟨u, hu⟩ := ih rest
              exact ⟨u, by rw [List.cons_append, ← hu]⟩

theorem splitSecFuel_pre_enum_free :
    ∀ (fuel : Nat) (s : Str), s.length < fuel →
      containsSub (chars "pub enum") (splitSecFuel fuel s).1 = false := by
  intro fuel
  induction fuel with
  | zero => intro s hs; omega
  | succ n ih =>
      intro s hs
      cases s with
      | nil =>
          show containsSub (chars "pub enum") ([] : Str) = false
          decide
      | cons c rest =>
          simp only [splitSecFuel]
          cases h1 : stripMatchCI (c :: rest) (chars "pub struct") with
          | some r =>
              show containsSub (chars "pub enum") ([] : Str) = false
              decide
          | none =>
          cases h2 : stripMatchCI (c :: rest) (chars "pub enum") with
          | some r =>
              show containsSub (chars "pub enum") ([] : Str) = false
              decide
          | none =>
          cases h3 : stripMatchCI (c :: rest) (chars "impl") with
          | some r =>
              show containsSub (chars "pub enum") ([] : Str) = false
              decide
          | none =>
              simp only [containsSub, Bool.or_eq_false_iff]
              have hlen : rest.length < n := by
                simp only [List.length_cons] at hs
                omega
              constructor
              · by_contra hsw
                simp only [Bool.not_eq_false] at hsw
                obtain ⟨u, hu⟩ := splitSecFuel_pre_prefix n rest
                have h4 : startsWithStr (c :: rest) (chars "pub enum") = true := by
                  have h5 := startsWithStr_append_of (chars "pub enum")
                    (c :: (splitSecFuel n rest).1) u hsw
                  rw [show (c :: (splitSecFuel n rest).1) ++ u =
                    c :: ((splitSecFuel n rest).1 ++ u) from rfl, ← hu] at h5
                  exact h5
                obtain ⟨r, hr⟩ := stripMatchCI_of_startsWith _ _ h4
                rw [hr] at h2
                exact Option.noConfusion h2
              · exact ih rest hlen

theorem splitSecFuel_body :
    ∀ (fuel : Nat) (s : Str), s.length < fuel →
      ∀ p ∈ (splitSecFuel fuel s).2,
        ∃ fuel2 s2, s2.length < fuel2 ∧ p.2 = (splitSecFuel fuel2 s2).1 := by
  intro fuel
  induction fuel with
  | zero => intro s hs; omega
  | succ n ih =>
      intro s hs p hp
      cases s with
      | nil => simp [splitSecFuel] at hp
      | cons c rest =>
          simp only [List.length_cons] at hs
          simp only [splitSecFuel] at hp
          cases h1 : stripMatchCI (c :: rest) (chars "pub struct") with
          | some r =>
              rw [h1] at hp
              have hr2 : r.2.length < n := by
                have := stripMatchCI_len _ _ _ h1
                simp only [List.length_cons] at this
                have hp10 : (chars "pub struct").length = 10 := by decide
                omega
              rcases List.mem_cons.1 hp with hp | hp
              · exact ⟨n, r.2, hr2, by rw [hp]⟩
              · exact ih r.2 hr2 p hp
          | none =>
          rw [h1] at hp
          cases h2 : stripMatchCI (c :: rest) (chars "pub enum") with
          | some r =>
              rw [h2] at hp
              have hr2 : r.2.length < n := by
                have := stripMatchCI_len _ _ _ h2
                simp only [List.length_cons] at this
                have hp8 : (chars "pub enum").length = 8 := by decide
                omega
              rcases List.mem_cons.1 hp with hp | hp
              · exact ⟨n, r.2, hr2, by rw [hp]⟩
              · exact ih r.2 hr2 p hp
          | none =>
          rw [h2] at hp
          cases h3 : stripMatchCI (c :: rest) (chars "impl") with
          | some r =>
              rw [h3] at hp
              have hr2 : r.2.length < n := by
                have := stripMatchCI_len _ _ _ h3
                simp only [List.length_cons] at this
                have hp4 : (chars "impl").length = 4 := by decide
                omega
              rcases List.mem_cons.1 hp with hp | hp
              · exact ⟨n, r.2, hr2, by rw [hp]⟩
              · exact ih r.2 hr2 p hp
          | none =>
              rw [h3] at hp
              exact ih rest (by omega) p hp

theorem body_enum_free {t : Str} {p : Sect} (hp : p ∈ (splitSections t).2) :
    containsSub (chars "pub enum") p.2 = false := by
  obtain ⟨fuel2, s2, hl, hb⟩ :=
    splitSecFuel_body (t.length + 1) t (by omega) p hp
  rw [hb]
  exact splitSecFuel_pre_enum_free fuel2 s2 hl

/-! ## Rerunning on the merged table: section and pass simulation -/

theorem containsSub_enum_after_struct (b : Str) :
    containsSub (chars "pub enum") (chars "pub struct" ++ b) =
      containsSub (chars "pub enum") b := by
  show containsSub (chars "pub enum")
    ('p' :: 'u' :: 'b' :: ' ' :: 's' :: 't' :: 'r' :: 'u' :: 'c' :: 't' :: b) = _
  simp [containsSub, startsWithStr, chars]

theorem kwImpl_ne_enum : chars "impl" ≠ chars "pub enum" := by decide

theorem kwImpl_ne_struct : chars "impl" ≠ chars "pub struct" := by decide

theorem kwStruct_ne_enum : chars "pub struct" ≠ chars "pub enum" := by decide

theorem sectKey_eq_one {p : Sect} (h : sectKey p = 1) :
    lowerStr p.1 = chars "pub enum" := by
  by_cases h1 : lowerStr p.1 = chars "pub enum"
  · exact h1
  · exfalso
    by_cases h2 : lowerStr p.1 = chars "pub struct"
    · simp [sectKey, h1, h2, kwStruct_ne_enum] at h
    · by_cases h3 : lowerStr p.1 = chars "impl"
      · simp [sectKey, h1, h2, h3, kwImpl_ne_enum, kwImpl_ne_struct] at h
      · simp [sectKey, h1, h2, h3] at h

theorem sectKey_eq_two {p : Sect} (h : sectKey p = 2) :
    lowerStr p.1 = chars "pub struct" := by
  by_cases h2 : lowerStr p.1 = chars "pub struct"
  · exact h2
  · exfalso
    by_cases h1 : lowerStr p.1 = chars "pub enum"
    · simp [sectKey, h1] at h
    · by_cases h3 : lowerStr p.1 = chars "impl"
      · simp [sectKey, h1, h2, h3, kwImpl_ne_enum, kwImpl_ne_struct] at h
      · simp [sectKey, h1, h2, h3] at h

theorem sectKey_eq_three {p : Sect} (h : sectKey p = 3) :
    lowerStr p.1 = chars "impl" := by
  by_cases h3 : lowerStr p.1 = chars "impl"
  · exact h3
  · exfalso
    by_cases h1 : lowerStr p.1 = chars "pub enum"
    · simp [sectKey, h1] at h
    · by_cases h2 : lowerStr p.1 = chars "pub struct"
      · simp [sectKey, h1, h2, kwStruct_ne_enum] at h
      · simp [sectKey, h1, h2, h3] at h

theorem processSection_mono_enumKey {m : SizeMap} {ES : EnumSizes}
    (hu : uniqueKeys ES) (hfresh : ∀ p ∈ ES, alistLookup m p.1 = none)
    {sess : Session} {st st' : St} {p : Sect}
    (hk : lowerStr p.1 = chars "pub enum")
    (h : processSection m sess st p = .ok st') :
    processSection (alistUpdate m (ES.map (fun q => (q.1, q.2.1)))) sess st p =
      .ok st' := by
  simp only [processSection, hk] at h ⊢
  by_cases hi : containsSub (chars "impl") (chars "pub enum" ++ p.2) = true
  · rw [if_pos hi] at h ⊢
    exact h
  · rw [if_neg hi] at h ⊢
    rw [if_pos (containsSub_self_append _ _)] at h ⊢
    exact processEnumSection_mono hu hfresh h

theorem foldStructLines_mono {m : SizeMap} {ES : EnumSizes}
    (hu : uniqueKeys ES) (hfresh : ∀ p ∈ ES, alistLookup m p.1 = none)
    {sess : Session} :
    ∀ (lines : List Str) (st st' : St), st.enumSizes = ES →
      List.foldlM (processStructLine m sess) st lines = .ok st' →
      List.foldlM
        (processStructLine (alistUpdate m (ES.map (fun q => (q.1, q.2.1)))) sess)
        st lines = .ok st' := by
  intro lines
  induction lines with
  | nil =>
      intro st st' _ h
      simp only [List.foldlM_nil] at h ⊢
      exact h
  | cons l rest ih =>
      intro st st' hes h
      rw [List.foldlM_cons] at h ⊢
      cases h1 : processStructLine m sess st l with
      | error e => rw [h1] at h; simp [Bind.bind, Except.bind] at h
      | ok st1 =>
          rw [h1] at h
          simp only [Bind.bind, Except.bind] at h
          rw [processStructLine_mono hu hfresh hes h1]
          simp only [Bind.bind, Except.bind]
          exact ih st1 st' (by rw [processStructLine_enumSizes h1, hes]) h

theorem processStructSection_mono {m : SizeMap} {ES : EnumSizes}
    (hu : uniqueKeys ES) (hfresh : ∀ p ∈ ES, alistLookup m p.1 = none)
    {sess : Session} {st st' : St} {sect : Str} (hes : st.enumSizes = ES)
    (h : processStructSection m sess st sect = .ok st') :
    processStructSection (alistUpdate m (ES.map (fun q => (q.1, q.2.1)))) sess st
      sect = .ok st' := by
  unfold processStructSection at h ⊢
  exact foldStructLines_mono hu hfresh _ _ _ hes h

theorem processSection_mono_structKey {m : SizeMap} {ES : EnumSizes}
    (hu : uniqueKeys ES) (hfresh : ∀ p ∈ ES, alistLookup m p.1 = none)
    {sess : Session} {st st' : St} {p : Sect}
    (hk : lowerStr p.1 = chars "pub struct")
    (hbf : containsSub (chars "pub enum") p.2 = false)
    (hes : st.enumSizes = ES)
    (h : processSection m sess st p = .ok st') :
    processSection (alistUpdate m (ES.map (fun q => (q.1, q.2.1)))) sess st p =
      .ok st' := by
  simp only [processSection, hk] at h ⊢
  by_cases hi : containsSub (chars "impl") (chars "pub struct" ++ p.2) = true
  · rw [if_pos hi] at h ⊢
    exact h
  · rw [if_neg hi] at h ⊢
    have hne : ¬ (containsSub (chars "pub enum") (chars "pub struct" ++ p.2) = true) := by
      rw [containsSub_enum_after_struct, hbf]
      simp
    rw [if_neg hne] at h ⊢
    rw [if_pos (containsSub_self_append _ _)] at h ⊢
    exact processStructSection_mono hu hfresh hes h

theorem processSection_enums_structKey {m : SizeMap} {sess : Session}
    {st st' : St} {p : Sect} (hk : lowerStr p.1 = chars "pub struct")
    (hbf : containsSub (chars "pub enum") p.2 = false)
    (h : processSection m sess st p = .ok st') : st'.enumSizes = st.enumSizes := by
  simp only [processSection, hk] at h
  by_cases hi : containsSub (chars "impl") (chars "pub struct" ++ p.2) = true
  · rw [if_pos hi] at h
    injection h with h2
    rw [← h2]
  · rw [if_neg hi] at h
    have hne : ¬ (containsSub (chars "pub enum") (chars "pub struct" ++ p.2) = true) := by
      rw [containsSub_enum_after_struct, hbf]
      simp
    rw [if_neg hne] at h
    rw [if_pos (containsSub_self_append _ _)] at h
    exact processStructSection_enumSizes h

theorem processSection_mono_implKey {m : SizeMap} (m2 : SizeMap) {sess : Session}
    {st st' : St} {p : Sect} (hk : lowerStr p.1 = chars "impl")
    (h : processSection m sess st p = .ok st') :
    processSection m2 sess st p = .ok st' ∧ st'.enumSizes = st.enumSizes := by
  simp only [processSection, hk] at h ⊢
  rw [if_pos (containsSub_self_append _ _)] at h ⊢
  refine ⟨h, ?_⟩
  injection h with h2
  rw [← h2]

theorem foldPhase1_mono {m : SizeMap} {ES : EnumSizes}
    (hu : uniqueKeys ES) (hfresh : ∀ p ∈ ES, alistLookup m p.1 = none)
    {sess : Session} :
    ∀ (secs : List Sect) (st st' : St),
      (∀ p ∈ secs, lowerStr p.1 = chars "pub enum") →
      List.foldlM (processSection m sess) st secs = .ok st' →
      List.foldlM
        (processSection (alistUpdate m (ES.map (fun q => (q.1, q.2.1)))) sess)
        st secs = .ok st' := by
  intro secs
  induction secs with
  | nil =>
      intro st st' _ h
      simp only [List.foldlM_nil] at h ⊢
      exact h
  | cons p rest ih =>
      intro st st' hmem h
      rw [List.foldlM_cons] at h ⊢
      cases h1 : processSection m sess st p with
      | error e => rw [h1] at h; simp [Bind.bind, Except.bind] at h
      | ok st1 =>
          rw [h1] at h
          simp only [Bind.bind, Except.bind] at h
          rw [processSection_mono_enumKey hu hfresh
            (hmem p (List.mem_cons_self _ _)) h1]
          simp only [Bind.bind, Except.bind]
          exact ih st1 st' (fun q hq => hmem q (List.mem_cons_of_mem _ hq)) h

theorem foldPhase23_preserves {m : SizeMap} {sess : Session} :
    ∀ (secs : List Sect) (st st' : St),
      (∀ p ∈ secs, (lowerStr p.1 = chars "pub struct" ∧
          containsSub (chars "pub enum") p.2 = false) ∨
        lowerStr p.1 = chars "impl") →
      List.foldlM (processSection m sess) st secs = .ok st' →
      st'.enumSizes = st.enumSizes := by
  intro secs
  induction secs with
  | nil =>
      intro st st' _ h
      simp only [List.foldlM_nil, pure, Except.pure] at h
      injection h with h2
      rw [← h2]
  | cons p rest ih =>
      intro st st' hmem h
      rw [List.foldlM_cons] at h
      cases h1 : processSection m sess st p with
      | error e => rw [h1] at h; simp [Bind.bind, Except.bind] at h
      | ok st1 =>
          rw [h1] at h
          simp only [Bind.bind, Except.bind] at h
          have hrest := ih st1 st' (fun q hq => hmem q (List.mem_cons_of_mem _ hq)) h
          rcases hmem p (List.mem_cons_self _ _) with ⟨hk, hbf⟩ | hk
          · rw [hrest, processSection_enums_structKey hk hbf h1]
          · rw [hrest, (processSection_mono_implKey m hk h1).2]

theorem foldPhase23_mono {m : SizeMap} {ES : EnumSizes}
    (hu : uniqueKeys ES) (hfresh : ∀ p ∈ ES, alistLookup m p.1 = none)
    {sess : Session} :
    ∀ (secs : List Sect) (st st' : St),
      (∀ p ∈ secs, (lowerStr p.1 = chars "pub struct" ∧
          containsSub (chars "pub enum") p.2 = false) ∨
        lowerStr p.1 = chars "impl") →
      st.enumSizes = ES →
      List.foldlM (processSection m sess) st secs = .ok st' →
      List.foldlM
        (processSection (alistUpdate m (ES.map (fun q => (q.1, q.2.1)))) sess)
        st secs = .ok st' := by
  intro secs
  induction secs with
  | nil =>
      intro st st' _ _ h
      simp only [List.foldlM_nil] at h ⊢
      exact h
  | cons p rest ih =>
      intro st st' hmem hes h
      rw [List.foldlM_cons] at h ⊢
      cases h1 : processSection m sess st p with
      | error e => rw [h1] at h; simp [Bind.bind, Except.bind] at h
      | ok st1 =>
          rw [h1] at h
          simp only [Bind.bind, Except.bind] at h
          have hes1 : st1.enumSizes = ES := by
            rcases hmem p (List.mem_cons_self _ _) with ⟨hk, hbf⟩ | hk
            · rw [processSection_enums_structKey hk hbf h1, hes]
            · rw [(processSection_mono_implKey m hk h1).2, hes]
          have hstep : processSection
              (alistUpdate m (ES.map (fun q => (q.1, q.2.1)))) sess st p =
              .ok st1 := by
            rcases hmem p (List.mem_cons_self _ _) with ⟨hk, hbf⟩ | hk
            · exact processSection_mono_structKey hu hfresh hk hbf hes h1
            · exact (processSection_mono_implKey _ hk h1).1
          rw [hstep]
          simp only [Bind.bind, Except.bind]
          exact ih st1 st' (fun q hq => hmem q (List.mem_cons_of_mem _ hq)) hes1 h

theorem foldlM_append_ok_inv {f : St → Sect → Except Str St}
    (l1 l2 : List Sect) (st st' : St)
    (h : List.foldlM f st (l1 ++ l2) = .ok st') :
    ∃ stm, List.foldlM f st l1 = .ok stm ∧ List.foldlM f stm l2 = .ok st' := by
  rw [List.foldlM_append] at h
  cases h1 : List.foldlM f st l1 with
  | error e => rw [h1] at h; simp [Bind.bind, Except.bind] at h
  | ok stm =>
      rw [h1] at h
      simp only [Bind.bind, Except.bind] at h
      exact ⟨stm, rfl, h⟩

theorem calculate_rerun {t : Str} {s : Session} {m : SizeMap} {r : CalcResult}
    (h : calculate_struct_size t s m = .ok r)
    (hfresh : ∀ p ∈ r.enumSizes, alistLookup m p.1 = none) :
    calculate_struct_size t s r.sizeMap = calculate_struct_size t s m := by
  have hu := calculate_ok_unique h
  obtain ⟨hrun, hmap⟩ := calculate_ok_elim h
  have hsplit : insSort sectKey (splitSections t).2 =
      (splitSections t).2.filter (fun p => sectKey p == 1) ++
        ((splitSections t).2.filter (fun p => sectKey p == 2) ++
          (splitSections t).2.filter (fun p => sectKey p == 3)) :=
    insSort_sectKey_split _ (fun p hp => sectKey_of_splitSections hp)
  unfold runSections at hrun
  rw [hsplit] at hrun
  obtain ⟨st1, hA, hBC⟩ := foldlM_append_ok_inv _ _ _ _ hrun
  have hmem1 : ∀ p ∈ (splitSections t).2.filter (fun p => sectKey p == 1),
      lowerStr p.1 = chars "pub enum" := by
    intro p hp
    exact sectKey_eq_one (by simpa using List.of_mem_filter hp)
  have hmem23 : ∀ p ∈ (splitSections t).2.filter (fun p => sectKey p == 2) ++
      (splitSections t).2.filter (fun p => sectKey p == 3),
      (lowerStr p.1 = chars "pub struct" ∧
        containsSub (chars "pub enum") p.2 = false) ∨
      lowerStr p.1 = chars "impl" := by
    intro p hp
    rcases List.mem_append.1 hp with hp | hp
    · left
      exact ⟨sectKey_eq_two (by simpa using List.of_mem_filter hp),
        body_enum_free (List.mem_of_mem_filter hp)⟩
    · right
      exact sectKey_eq_three (by simpa using List.of_mem_filter hp)
  have hes1 : st1.enumSizes = r.enumSizes := by
    have := foldPhase23_preserves _ st1 _ hmem23 hBC
    exact this.symm
  have hA2 := foldPhase1_mono hu hfresh _ initialSt st1 hmem1 hA
  have hBC2 := foldPhase23_mono hu hfresh _ st1 _ hmem23 hes1 hBC
  have hrun2 : runSections (alistUpdate m (r.enumSizes.map (fun q => (q.1, q.2.1))))
      s (insSort sectKey (splitSections t).2) =
      .ok { enumSizes := r.enumSizes, structSize := r.structSize,
            calcStrs := r.calcStrs, comments := r.comments, msgs := r.msgs } := by
    unfold runSections
    rw [hsplit, List.foldlM_append, hA2]
    simp only [Bind.bind, Except.bind]
    exact hBC2
  have hself : alistUpdate (alistUpdate m (r.enumSizes.map (fun q => (q.1, q.2.1))))
      (r.enumSizes.map (fun q => (q.1, q.2.1))) =
      alistUpdate m (r.enumSizes.map (fun q => (q.1, q.2.1))) := by
    apply alistUpdate_self
    intro p hp
    exact alistLookup_update_mem _ _ _ _ (uniqueKeys_map_fst _ _ hu) hp
  have hcalc2 : calculate_struct_size t s
      (alistUpdate m (r.enumSizes.map (fun q => (q.1, q.2.1)))) = .ok r := by
    unfold calculate_struct_size
    simp only [hrun2]
    have hsz : alistUpdate
        (alistUpdate m (r.enumSizes.map (fun q => (q.1, q.2.1))))
        (r.enumSizes.map (fun q => (q.1, q.2.1))) = r.sizeMap := by
      rw [hself]
      exact hmap.symm
    rw [hsz]
  rw [hmap, hcalc2, h]

/-! ## Claim C1 -/

/-- C1 counterexample: the claim says the engine never raises an uncaught
exception, but on a union declaration with no brace-delimited body the enum
regex fails to match and `.groups()` raises `AttributeError`, aborting the
whole computation. -/
theorem C1_counterexample :
    calculate_struct_size txtEnumNoBrace defaultSession DEFAULT_SIZE_MAP =
      .error (chars "AttributeError: NoneType object has no attribute groups") := by
  decide

/-- C1 amended: an unrecognized plain type name in a record field is reported
on the error channel and the line loop continues (first conjunct, for any
table, session and prior state), but the engine does not always return a
result: for example a growable-sequence field whose element type is absent
from the size table aborts with an uncaught `KeyError` (second conjunct);
a union body without the brace form likewise aborts (`C1_counterexample`). -/
theorem C1_amended :
    (∀ (m : SizeMap) (sess : Session) (st : St) (raw p0 p1 ty : Str),
        (pyStrip raw).isEmpty = false →
        startsWithStr (pyStrip raw) (chars "//") = false →
        findSub (chars "//") (pyStrip raw) = none →
        splitOnChar ':' (pyStrip raw) = [p0, p1] →
        pyStrip (pyRstripChar ';' (pyRstripChar ',' (pyStrip p1))) = ty →
        startsWithStr (lowerStr ty) (chars "vec<") = false →
        startsWithStr (lowerStr ty) (chars "option<") = false →
        startsWithStr ty (chars "string") = false →
        (startsWithStr ty (chars "[") && endsWithStr ty (chars "]")) = false →
        alistLookup st.enumSizes (lowerStr ty) = none →
        alistLookup m (lowerStr ty) = none →
        processStructLine m sess st raw = .ok { st with
          msgs := st.msgs ++ [Msg.err (chars "no type: \"" ++ ty ++
            chars "\" in byte size map")] }) ∧
    calculate_struct_size txtVecUnknown defaultSession DEFAULT_SIZE_MAP =
      .error (chars "KeyError: qqq") :=
  ⟨fun m sess st raw p0 p1 ty => processStructLine_unknown_plain m sess st raw p0 p1 ty,
   by decide⟩

/-- C1 amended, witness: the first conjunct applied to the record line
`pub a: Foo,` over the default table. -/
theorem C1_amended_witness :
    processStructLine DEFAULT_SIZE_MAP defaultSession initialSt
      (chars "    pub a: Foo,") = .ok { initialSt with
        msgs := initialSt.msgs ++ [Msg.err (chars "no type: \"" ++ chars "Foo" ++
          chars "\" in byte size map")] } :=
  C1_amended.1 DEFAULT_SIZE_MAP defaultSession initialSt (chars "    pub a: Foo,")
    (chars "pub a") (chars " Foo,") (chars "Foo")
    (by decide) (by decide) (by decide) (by decide) (by decide) (by decide)
    (by decide) (by decide) (by decide) (by decide) (by decide)

/-! ## Claim C2 -/

/-- C2 counterexample: an unresolved union payload field type is claimed to
be reported as an error with 0 bytes counted and resolution continuing; the
code instead indexes `size_map` directly and the `KeyError` aborts the whole
computation. -/
theorem C2_counterexample :
    calculate_struct_size txtEnumBadPayload defaultSession DEFAULT_SIZE_MAP =
      .error (chars "KeyError: foo") := by
  decide

/-- C2 amended: a union variant payload field whose type is absent from the
Size Table makes the variant field loop abort with an uncaught exception
(first conjunct, for every table and field list); nothing is reported to the
error channel and later fields and variants are not processed — concretely, a
variant `X { u: u32, b: Foo, w: u64 }` aborts the whole computation at `Foo`
(second conjunct). -/
theorem C2_amended :
    (∀ (m : SizeMap) (fields : List Str) (f : Str), f ∈ fields →
        (match splitOnChar ':' f with
         | [_, t] => alistLookup m (lowerStr (pyStrip t)) = none
         | _ => True) →
        (resolveVariantFields m fields).isOk = false) ∧
    calculate_struct_size
        (chars "pub enum A \x7b X \x7b u: u32, b: Foo, w: u64 \x7d \x7d")
        defaultSession DEFAULT_SIZE_MAP = .error (chars "KeyError: foo") :=
  ⟨fun m fields f hf hbad => resolveVariantFields_not_ok fields f hf hbad,
   by decide⟩

/-- C2 amended, witness: the first conjunct applied to the single field
`x: Foo` over the default table. -/
theorem C2_amended_witness :
    (resolveVariantFields DEFAULT_SIZE_MAP [chars "x: Foo"]).isOk = false :=
  C2_amended.1 DEFAULT_SIZE_MAP [chars "x: Foo"] (chars "x: Foo")
    (by decide)
    (show alistLookup DEFAULT_SIZE_MAP (lowerStr (pyStrip (chars " Foo"))) = none
      from by decide)

/-! ## Claim C3 -/

/-- C3, code bug evaluated: a field declared with the Rust spelling `String`
is not matched by the case-sensitive `startswith("string")`, so it yields an
unresolved-type error and 0 bytes (first conjunct); and even for a lowercase
`string` field the engine always adds `4 + DEFAULT_STR = 5`, ignoring the
caller's string-length override entirely (second conjunct, for every override
value). -/
theorem C3_string_behavior :
    (calculate_struct_size txtStringCap { vecSize := 10, strSize := 7 }
        DEFAULT_SIZE_MAP).map (fun r => (r.structSize, errCount r.msgs)) =
      .ok (0, 1) ∧
    (∀ s : Int, (calculate_struct_size txtStringLow { vecSize := 10, strSize := s }
        DEFAULT_SIZE_MAP).map (fun r => r.structSize) = .ok 5) :=
  ⟨by decide, fun s => rfl⟩

/-! ## Claim C4 -/

/-- C4 counterexample: the claim says no computation pass changes the result
of a later pass, but after a pass that resolves union `Gs` on the shared
default table, a later pass on a record referencing `Gs` totals 2, whereas
on a fresh default table it totals 0 (with an unresolved-type error). -/
theorem C4_counterexample :
    ((calculate_struct_size txtEnumGs defaultSession DEFAULT_SIZE_MAP).bind
        (fun r => calculate_struct_size txtStructGs defaultSession r.sizeMap)).map
      (fun r => r.structSize) = .ok 2 ∧
    (calculate_struct_size txtStructGs defaultSession DEFAULT_SIZE_MAP).map
      (fun r => r.structSize) = .ok 0 :=
  ⟨by decide, by decide⟩

/-- C4 amended: no fresh table is constructed; a successful pass merges its
resolved union sizes into the caller-supplied table in place and returns that
same mutated table, so every union it resolved stays observable (under its
lowercased name) in any later pass reusing the table. -/
theorem C4_amended :
    ∀ (t : Str) (s : Session) (m : SizeMap) (r : CalcResult),
      calculate_struct_size t s m = .ok r →
      r.sizeMap = alistUpdate m (r.enumSizes.map (fun p => (p.1, p.2.1))) ∧
      ∀ p ∈ r.enumSizes, alistLookup r.sizeMap p.1 = some p.2.1 := by
  intro t s m r h
  have h1 := (calculate_ok_elim h).2
  refine ⟨h1, fun p hp => ?_⟩
  rw [h1]
  have hu2 := uniqueKeys_map_fst r.enumSizes (fun p => p.2.1) (calculate_ok_unique h)
  exact alistLookup_update_mem m _ p.1 p.2.1 hu2 (List.mem_map.2 ⟨p, hp, rfl⟩)

/-- C4 amended, witness: the pass over `txtEnumGs` returns the default table
mutated with `gs ↦ 2`, and the union is still found there afterwards. -/
theorem C4_amended_witness :
    calculate_struct_size txtEnumGs defaultSession DEFAULT_SIZE_MAP = .ok resEnumGs ∧
    resEnumGs.sizeMap = alistUpdate DEFAULT_SIZE_MAP
      (resEnumGs.enumSizes.map (fun p => (p.1, p.2.1))) ∧
    alistLookup resEnumGs.sizeMap (chars "gs") = some 2 :=
  have h : calculate_struct_size txtEnumGs defaultSession DEFAULT_SIZE_MAP =
      .ok resEnumGs := by decide
  ⟨h, (C4_amended _ _ _ _ h).1,
   (C4_amended _ _ _ _ h).2 (chars "gs", (2, chars "1 + u8")) (by decide)⟩

/-! ## Claim C5 -/

/-- C5 counterexample: for `pub enum E { A { x: u8 }, B { y: u16 } }` the
claim requires the maximum variant's composition `1 + u16` (size 3); the code
stores `(2, "1 + u8")`, the first payload variant, because the body is
truncated at the first closing brace and `B` is never parsed. -/
theorem C5_counterexample :
    (calculate_struct_size txtDeriv defaultSession DEFAULT_SIZE_MAP).map
      (fun r => alistLookup r.enumSizes (chars "e")) =
      .ok (some (2, chars "1 + u8")) := by
  decide

/-- C5 amended: the stored derivation string is that of the **last**
payload-bearing variant processed, whether or not it is the maximum (first
conjunct); the regex hands the resolver a body containing no closing brace
(second conjunct), and in such a body every variant span except the last is
payload-free (third conjunct) — so at most one payload variant, the first in
source order, is ever processed, and its composition is what is recorded. -/
theorem C5_amended :
    (∀ (m : SizeMap) (v : Str) (fields fcalc : List Str) (fsz : Int),
        variantFieldsOf v = some fields →
        resolveVariantFields m fields = .ok (fsz, fcalc) →
        ∀ (vs : List Str) (sz s' : Int) (cstr c' : Str),
          processEnumVariants m vs sz cstr = .ok (s', c') →
          processEnumVariants m (vs ++ [v]) sz cstr =
            .ok (max s' (1 + fsz), chars "1 + " ++ joinSep (chars " + ") fcalc)) ∧
    (∀ (s : Str) (nb : Str × Str), searchEnumDecl s = some nb →
        nb.2.any (· = '\x7d') = false) ∧
    (∀ (t : Str), t.any (· = '\x7d') = false →
        ∀ v ∈ (split_variants t).dropLast, breakAtChar '\x7b' (pyStrip v) = none) :=
  ⟨fun m v fields fcalc fsz hf hr => processEnumVariants_append hf hr,
   fun s nb h => searchEnumDecl_no_brace h,
   fun t hn => split_variants_truncated hn⟩

/-- C5 amended, witness: appending payload variant `B { y: u16` after
`A { x: u8` overwrites the derivation string with `1 + u16` while the size
becomes `max 2 (1 + 2)`. -/
theorem C5_amended_witness :
    processEnumVariants DEFAULT_SIZE_MAP
        [chars "A \x7b x: u8", chars "B \x7b y: u16"] 1 (chars "1") =
      .ok (max 2 (1 + 2), chars "1 + " ++ joinSep (chars " + ") [chars "u16"]) :=
  C5_amended.1 DEFAULT_SIZE_MAP (chars "B \x7b y: u16") [chars " y: u16"]
    [chars "u16"] 2 (by decide) (by decide)
    [chars "A \x7b x: u8"] 1 2 (chars "1") (chars "1 + u8") (by decide)

/-! ## Claim C6 -/

/-- C6 confirmed: the sorted section list is exactly the union blocks (in
source order), then the record blocks (in source order), then the `impl`
blocks (first conjunct, for every input text); consequently a record declared
before the union it references still resolves it — the concrete
record-then-union input totals 2 and the union is in the returned table
(second conjunct). -/
theorem C6_union_first_ordering :
    (∀ t : Str, insSort sectKey (splitSections t).2 =
        (splitSections t).2.filter (fun p => sectKey p == 1) ++
          ((splitSections t).2.filter (fun p => sectKey p == 2) ++
            (splitSections t).2.filter (fun p => sectKey p == 3))) ∧
    (calculate_struct_size txtOrder defaultSession DEFAULT_SIZE_MAP).map
      (fun r => (r.structSize, alistLookup r.sizeMap (chars "u"))) =
      .ok (2, some 2) :=
  ⟨fun t => insSort_sectKey_split _ (fun p hp => sectKey_of_splitSections hp),
   by decide⟩

/-! ## Claim C7 -/

/-- C7, code bug evaluated: on the enum example from the source's own rules
table (`Enum { A, B { val: u8 }, C { val: u16 } }`, documented as size 3) the
engine resolves size 2, because the union body is truncated at the first
closing brace and variant `C` is never seen (first conjunct); the claim's own
`{NoPayload}` / `{WithByte: u8}` instance does resolve to 2 and adds 2 to the
embedding record (second conjunct). -/
theorem C7_enum_truncation :
    (calculate_struct_size txtRules defaultSession DEFAULT_SIZE_MAP).map
      (fun r => alistLookup r.sizeMap (chars "e")) = .ok (some 2) ∧
    (calculate_struct_size txtTag defaultSession DEFAULT_SIZE_MAP).map
      (fun r => (r.structSize, alistLookup r.sizeMap (chars "u"))) =
      .ok (2, some 2) :=
  ⟨by decide, by decide⟩

/-! ## Claim C8 -/

/-- C8 confirmed: an optional field over a resolved inner type contributes
`1 + size` with no message (first conjunct); over an unresolved inner type it
contributes exactly 1 and appends exactly one unresolved-type error, leaving
every other component of the accumulated state untouched (second conjunct;
the state `st` is arbitrary, so other fields' contributions are unaffected);
concretely `Option<i32>` + `Option<Foo>` + `u64` totals `5 + 1 + 8 = 14` with
exactly one error (third conjunct). -/
theorem C8_optional_field :
    (∀ (m : SizeMap) (sess : Session) (st : St) (raw p0 p1 ty base : Str) (v : Int),
        (pyStrip raw).isEmpty = false →
        startsWithStr (pyStrip raw) (chars "//") = false →
        findSub (chars "//") (pyStrip raw) = none →
        splitOnChar ':' (pyStrip raw) = [p0, p1] →
        pyStrip (pyRstripChar ';' (pyRstripChar ',' (pyStrip p1))) = ty →
        startsWithStr (lowerStr ty) (chars "vec<") = false →
        startsWithStr (lowerStr ty) (chars "option<") = true →
        searchAngleInner (chars "option<") ty = some base →
        alistLookup m (lowerStr base) = some v →
        processStructLine m sess st raw = .ok { st with
          structSize := st.structSize + (1 + v),
          calcStrs := calcAppend st.calcStrs (chars "1 + " ++ lowerStr base),
          comments := st.comments ++ [chars "+ " ++ intToChars (1 + v) ++
            chars " // " ++ p0 ++ chars ": " ++ ty] }) ∧
    (∀ (m : SizeMap) (sess : Session) (st : St) (raw p0 p1 ty base : Str),
        (pyStrip raw).isEmpty = false →
        startsWithStr (pyStrip raw) (chars "//") = false →
        findSub (chars "//") (pyStrip raw) = none →
        splitOnChar ':' (pyStrip raw) = [p0, p1] →
        pyStrip (pyRstripChar ';' (pyRstripChar ',' (pyStrip p1))) = ty →
        startsWithStr (lowerStr ty) (chars "vec<") = false →
        startsWithStr (lowerStr ty) (chars "option<") = true →
        searchAngleInner (chars "option<") ty = some base →
        alistLookup m (lowerStr base) = none →
        alistLookup st.enumSizes (lowerStr base) = none →
        processStructLine m sess st raw = .ok { st with
          structSize := st.structSize + 1,
          calcStrs := calcAppend st.calcStrs (chars "1 + " ++ lowerStr base),
          comments := st.comments ++ [chars "+ " ++ intToChars 1 ++
            chars " // " ++ p0 ++ chars ": " ++ ty],
          msgs := st.msgs ++ [Msg.err (noTypeFieldMsg base (pyStrip raw))] }) ∧
    (calculate_struct_size txtOpt defaultSession DEFAULT_SIZE_MAP).map
      (fun r => (r.structSize, errCount r.msgs, r.comments)) =
      .ok (14, 1, [chars "+ 5 // pub m: Option<i32>",
        chars "+ 1 // pub w: Option<Foo>", chars "+ 8 // pub z: u64"]) :=
  ⟨fun m sess st raw p0 p1 ty base v =>
      processStructLine_option_resolved m sess st raw p0 p1 ty base v,
   fun m sess st raw p0 p1 ty base =>
      processStructLine_option_unresolved m sess st raw p0 p1 ty base,
   by decide⟩

/-- C8 witness: the two universal conjuncts applied to `Option<i32>` (4-byte
inner type, contributes 5) and `Option<Foo>` (unresolved, contributes 1 with
one error) over the default table. -/
theorem C8_optional_field_witness :
    processStructLine DEFAULT_SIZE_MAP defaultSession initialSt
        (chars "    pub m: Option<i32>,") = .ok { initialSt with
      structSize := initialSt.structSize + (1 + 4),
      calcStrs := calcAppend initialSt.calcStrs
        (chars "1 + " ++ lowerStr (chars "i32")),
      comments := initialSt.comments ++ [chars "+ " ++ intToChars (1 + 4) ++
        chars " // " ++ chars "pub m" ++ chars ": " ++ chars "Option<i32>"] } ∧
    processStructLine DEFAULT_SIZE_MAP defaultSession initialSt
        (chars "    pub w: Option<Foo>,") = .ok { initialSt with
      structSize := initialSt.structSize + 1,
      calcStrs := calcAppend initialSt.calcStrs
        (chars "1 + " ++ lowerStr (chars "Foo")),
      comments := initialSt.comments ++ [chars "+ " ++ intToChars 1 ++
        chars " // " ++ chars "pub w" ++ chars ": " ++ chars "Option<Foo>"],
      msgs := initialSt.msgs ++ [Msg.err (noTypeFieldMsg (chars "Foo")
        (pyStrip (chars "    pub w: Option<Foo>,")))] } :=
  ⟨C8_optional_field.1 DEFAULT_SIZE_MAP defaultSession initialSt
      (chars "    pub m: Option<i32>,") (chars "pub m") (chars " Option<i32>,")
      (chars "Option<i32>") (chars "i32") 4
      (by decide) (by decide) (by decide) (by decide) (by decide) (by decide)
      (by decide) (by decide) (by decide),
   C8_optional_field.2.1 DEFAULT_SIZE_MAP defaultSession initialSt
      (chars "    pub w: Option<Foo>,") (chars "pub w") (chars " Option<Foo>,")
      (chars "Option<Foo>") (chars "Foo")
      (by decide) (by decide) (by decide) (by decide) (by decide) (by decide)
      (by decide) (by decide) (by decide) (by decide)⟩

/-! ## Claim C9 -/

/-- C9 counterexample: recomputing the same input with the same overrides is
claimed to yield identical results, but on a union named `u8` (which
overwrites the seeded primitive in the shared table) the first run totals 14
and the immediate second run totals 34. -/
theorem C9_counterexample :
    (calculate_struct_size txtShadow defaultSession DEFAULT_SIZE_MAP).map
      (fun r => r.structSize) = .ok 14 ∧
    ((calculate_struct_size txtShadow defaultSession DEFAULT_SIZE_MAP).bind
        (fun r => calculate_struct_size txtShadow defaultSession r.sizeMap)).map
      (fun r => r.structSize) = .ok 34 :=
  ⟨by decide, by decide⟩

/-- C9 amended: the engine is a pure function of (text, session, table), and
recomputation on the returned table is idempotent whenever none of the
resolved union names was already a key of the starting table (first
conjunct); it is the in-place union-size merge that mutates the shared
table, and a union redefining a seeded name — such as a union named `u8` —
breaks idempotence (`C9_counterexample`); the sequence-length override
behaves as claimed: 10 gives `4 + 32*10 = 324`, 3 gives `4 + 32*3 = 100`
(last two conjuncts). -/
theorem C9_amended :
    (∀ (t : Str) (s : Session) (m : SizeMap) (r : CalcResult),
        calculate_struct_size t s m = .ok r →
        (∀ p ∈ r.enumSizes, alistLookup m p.1 = none) →
        calculate_struct_size t s r.sizeMap = calculate_struct_size t s m) ∧
    (calculate_struct_size txtVec { vecSize := 10, strSize := 1 }
        DEFAULT_SIZE_MAP).map (fun r => r.structSize) = .ok 324 ∧
    (calculate_struct_size txtVec { vecSize := 3, strSize := 1 }
        DEFAULT_SIZE_MAP).map (fun r => r.structSize) = .ok 100 :=
  ⟨fun _ _ _ _ h hfresh => calculate_rerun h hfresh, by decide, by decide⟩

/-- C9 amended, witness: `txtEnumGs` resolves the fresh union name `gs`, and
rerunning it on the table returned by the first run is the same computation
as the first run. -/
theorem C9_amended_witness :
    calculate_struct_size txtEnumGs defaultSession DEFAULT_SIZE_MAP =
      .ok resEnumGs ∧
    calculate_struct_size txtEnumGs defaultSession resEnumGs.sizeMap =
      calculate_struct_size txtEnumGs defaultSession DEFAULT_SIZE_MAP :=
  have h : calculate_struct_size txtEnumGs defaultSession DEFAULT_SIZE_MAP =
      .ok resEnumGs := by decide
  ⟨h, C9_amended.1 txtEnumGs defaultSession DEFAULT_SIZE_MAP resEnumGs h
    (by decide)⟩

/-! ## Claim C10 -/

/-- C10 confirmed: a growable-sequence element type is looked up only in
`size_map` — with an arbitrary prior state, in particular one whose
`enum_sizes` contains the element type, a missing `size_map` key aborts with
`KeyError` rather than an error report (first conjunct); by contrast
`safe_get_size`, used by the optional and fixed-array branches, falls back to
the resolved unions (second conjunct); concretely a `Vec` over a union
declared in the same text aborts the whole computation (third conjunct). -/
theorem C10_vec_lookup :
    (∀ (m : SizeMap) (sess : Session) (st : St) (raw p0 p1 ty base : Str),
        (pyStrip raw).isEmpty = false →
        startsWithStr (pyStrip raw) (chars "//") = false →
        findSub (chars "//") (pyStrip raw) = none →
        splitOnChar ':' (pyStrip raw) = [p0, p1] →
        pyStrip (pyRstripChar ';' (pyRstripChar ',' (pyStrip p1))) = ty →
        startsWithStr (lowerStr ty) (chars "vec<") = true →
        searchAngleInner (chars "vec<") ty = some base →
        alistLookup m (lowerStr base) = none →
        processStructLine m sess st raw =
          .error (chars "KeyError: " ++ lowerStr base)) ∧
    (∀ (m : SizeMap) (es : EnumSizes) (base line : Str) (v : Int) (c : Str),
        alistLookup m (lowerStr base) = none →
        alistLookup es (lowerStr base) = some (v, c) →
        safe_get_size m es base line = (v, [])) ∧
    calculate_struct_size txtVecEnum defaultSession DEFAULT_SIZE_MAP =
      .error (chars "KeyError: e") :=
  ⟨fun m sess st raw p0 p1 ty base =>
      processStructLine_vec_missing m sess st raw p0 p1 ty base,
   fun m es base line v c => safe_get_size_enum_hit m es base line v c,
   by decide⟩

/-- C10 witness: the `Vec<E>` line aborts even though `e` is present in the
resolved-union table of the prior state, while `safe_get_size` on the same
element type succeeds through that table. -/
theorem C10_vec_lookup_witness :
    processStructLine DEFAULT_SIZE_MAP defaultSession
        { initialSt with enumSizes := [(chars "e", (2, chars "1 + u8"))] }
        (chars "    pub v: Vec<E>,") =
      .error (chars "KeyError: " ++ lowerStr (chars "E")) ∧
    safe_get_size DEFAULT_SIZE_MAP [(chars "e", (2, chars "1 + u8"))] (chars "E")
      (chars "pub o: Option<E>,") = (2, []) :=
  ⟨C10_vec_lookup.1 DEFAULT_SIZE_MAP defaultSession
      { initialSt with enumSizes := [(chars "e", (2, chars "1 + u8"))] }
      (chars "    pub v: Vec<E>,") (chars "pub v") (chars " Vec<E>,")
      (chars "Vec<E>") (chars "E")
      (by decide) (by decide) (by decide) (by decide) (by decide) (by decide)
      (by decide) (by decide),
   C10_vec_lookup.2.1 DEFAULT_SIZE_MAP [(chars "e", (2, chars "1 + u8"))]
      (chars "E") (chars "pub o: Option<E>,") 2 (chars "1 + u8")
      (by decide) (by decide)⟩
